import Mathlib

/-!
Verification of the b2beast document-analysis and legal-compliance pipelines.

The definitions below are a shallow embedding of the TypeScript source:

* `chunkArray` embeds `PdfParserWorkflow.chunkArray` / `LegalComplianceWorkflow.chunkArray`
  (`for (let i = 0; i < array.length; i += size) chunks.push(array.slice(i, i + size))`).
  With `size = 0` the JavaScript loop never advances `i` and diverges, so the
  embedding returns an `Option`: `none` models divergence.  `chunks` is the
  total function it computes for `size ≥ 1`.
* `batchByTokenLimit` embeds `LegalComplianceWorkflow.batchByTokenLimit`, with
  `approximateTokenCount` (`Math.ceil(text.length / 4)`) and the exact rendered
  text `` `${article.name} ${article.title || ""} ${article.body || ""}` ``.
* `selectLegalArticles` embeds the greedy article-selection double loop of
  `LegalComplianceWorkflow.identifyRelevantArticlesBatch` (inner `break` on the
  first over-budget article of a pre-batched group, outer `break` only when the
  accumulated total has reached `PHASE1_LEGAL_TOKENS`).
* The workflow `run` methods are embedded as pure functions from an oracle
  (the outcomes of the external inference / storage calls) to the list of
  database writes they perform plus the returned value.  JavaScript exceptions
  are modelled with `Except`; `Math.round(a/b)` is `jsRound`.
-/

namespace B2Beast

/-- Approximation of JavaScript `Math.round (num / den)` on non-negative
integers: `⌊num/den + 1/2⌋ = (2*num + den) / (2*den)`. -/
def jsRound (num den : Nat) : Nat := (2 * num + den) / (2 * den)

/-- JavaScript `x || dflt` for a nullable string `x`: both `null`/`undefined`
and the empty string are falsy. -/
def jsOr (x : Option String) (dflt : String) : String :=
  match x with
  | none => dflt
  | some s => if s = "" then dflt else s

/-! ### chunkArray -/

/-- Fuel-driven embedding of the `chunkArray` loop body.  Each iteration of the
source loop consumes `size` elements; the fuel bounds the number of
iterations, and running out of fuel on a non-empty list means the source loop
diverges (which happens exactly when `size = 0`). -/
def chunkArrayGo (size : Nat) : Nat → List α → Option (List (List α))
  | _, [] => some []
  | 0, _ :: _ => none
  | fuel + 1, a :: l =>
    (chunkArrayGo size fuel ((a :: l).drop size)).map (fun cs => (a :: l).take size :: cs)

/-- Embedding of `chunkArray(array, size)`.  `none` models the divergence of
the source loop (only possible for `size = 0` and a non-empty array). -/
def chunkArray (l : List α) (size : Nat) : Option (List (List α)) :=
  chunkArrayGo size l.length l

/-- Total companion of `chunkArrayGo`; its fuel-exhaustion branch is
unreachable for `size ≥ 1` and fuel `≥ l.length`. -/
def chunksGo (size : Nat) : Nat → List α → List (List α)
  | _, [] => []
  | 0, _ :: _ => []
  | fuel + 1, a :: l => (a :: l).take size :: chunksGo size fuel ((a :: l).drop size)

/-- The chunk list `chunkArray` computes whenever it terminates (`size ≥ 1`). -/
def chunks (l : List α) (size : Nat) : List (List α) :=
  chunksGo size l.length l

theorem chunkArrayGo_eq_chunksGo {size : Nat} (hs : 1 ≤ size) :
    ∀ (fuel : Nat) (l : List α), l.length ≤ fuel →
      chunkArrayGo size fuel l = some (chunksGo size fuel l) := by
  intro fuel
  induction fuel with
  | zero =>
    intro l hl
    match l with
    | [] => rfl
  | succ fuel ih =>
    intro l hl
    match l with
    | [] => rfl
    | a :: l =>
      have hdrop : ((a :: l).drop size).length ≤ fuel := by
        rw [List.length_drop]
        simp only [List.length_cons] at hl ⊢
        omega
      simp [chunkArrayGo, chunksGo, ih _ hdrop]

theorem chunksGo_length {size : Nat} (hs : 1 ≤ size) :
    ∀ (fuel : Nat) (l : List α), l.length ≤ fuel →
      (chunksGo size fuel l).length = (l.length + size - 1) / size := by
  intro fuel
  induction fuel with
  | zero =>
    intro l hl
    match l with
    | [] =>
      have h0 : (0 + size - 1) / size = 0 := by
        rw [Nat.zero_add]
        exact Nat.div_eq_of_lt (by omega)
      simp only [chunksGo, List.length_nil, h0]
  | succ fuel ih =>
    intro l hl
    match l with
    | [] =>
      have h0 : (0 + size - 1) / size = 0 := by
        rw [Nat.zero_add]
        exact Nat.div_eq_of_lt (by omega)
      simp only [chunksGo, List.length_nil, h0]
    | a :: l =>
      have hdrop : ((a :: l).drop size).length ≤ fuel := by
        rw [List.length_drop]
        simp only [List.length_cons] at hl ⊢
        omega
      have hrec := ih _ hdrop
      simp only [chunksGo, List.length_cons, List.length_drop] at hrec ⊢
      rw [hrec]
      rcases Nat.lt_or_ge (l.length + 1) size with hlt | hge
      · have h1 : l.length + 1 - size = 0 := by omega
        have h2 : (l.length + 1 + size - 1) / size = 1 := by
          have h3 : l.length + 1 + size - 1 = (l.length) + size := by omega
          rw [h3, Nat.add_div_right _ (by omega)]
          have h4 : l.length / size = 0 := Nat.div_eq_of_lt (by omega)
          omega
        rw [h1, h2]
        have h5 : (0 + size - 1) / size = 0 := by
          rw [Nat.zero_add]
          exact Nat.div_eq_of_lt (by omega)
        omega
      · have h1 : l.length + 1 - size + size - 1 = (l.length + 1 - 1) := by omega
        have h2 : l.length + 1 + size - 1 = (l.length + 1 - 1) + size := by omega
        rw [h1, h2, Nat.add_div_right _ (by omega)]

theorem chunksGo_le {size : Nat} :
    ∀ (fuel : Nat) (l : List α), ∀ c ∈ chunksGo size fuel l, c.length ≤ size := by
  intro fuel
  induction fuel with
  | zero =>
    intro l c hc
    match l with
    | [] => simp [chunksGo] at hc
    | _ :: _ => simp [chunksGo] at hc
  | succ fuel ih =>
    intro l c hc
    match l with
    | [] => simp [chunksGo] at hc
    | a :: l =>
      simp only [chunksGo, List.mem_cons] at hc
      rcases hc with rfl | hc
      · exact List.length_take_le _ _
      · exact ih _ c hc

theorem chunksGo_join {size : Nat} (hs : 1 ≤ size) :
    ∀ (fuel : Nat) (l : List α), l.length ≤ fuel →
      (chunksGo size fuel l).join = l := by
  intro fuel
  induction fuel with
  | zero =>
    intro l hl
    match l with
    | [] => rfl
  | succ fuel ih =>
    intro l hl
    match l with
    | [] => rfl
    | a :: l =>
      have hdrop : ((a :: l).drop size).length ≤ fuel := by
        rw [List.length_drop]
        simp only [List.length_cons] at hl ⊢
        omega
      simp only [chunksGo, List.join_cons, ih _ hdrop]
      exact List.take_append_drop size (a :: l)

/-- C3 (amended to `size ≥ 1`): for every list and every positive chunk size,
`chunkArray` terminates and returns `⌈N/size⌉` chunks, each of length at most
`size`, whose in-order concatenation is the original list. -/
theorem c3_chunk_amended (l : List Nat) (size : Nat) (hs : 1 ≤ size) :
    chunkArray l size = some (chunks l size) ∧
    (chunks l size).length = (l.length + size - 1) / size ∧
    (∀ c ∈ chunks l size, c.length ≤ size) ∧
    (chunks l size).join = l := by
  refine ⟨chunkArrayGo_eq_chunksGo hs _ _ le_rfl, chunksGo_length hs _ _ le_rfl,
    fun c hc => chunksGo_le _ _ c hc, chunksGo_join hs _ _ le_rfl⟩

/-- Witness for C3 at the spec's own example: 87 items at size 5 give 18
chunks, the last of length 2, concatenating back to the input. -/
theorem c3_chunk_witness :
    chunkArray (List.range 87) 5 = some (chunks (List.range 87) 5) ∧
    (chunks (List.range 87) 5).length = 18 ∧
    (chunks (List.range 87) 5).getLast? = some [85, 86] ∧
    (chunks (List.range 87) 5).join = List.range 87 := by
  have h := c3_chunk_amended (List.range 87) 5 (by decide)
  refine ⟨h.1, ?_, by decide, h.2.2.2⟩
  rw [h.2.1]
  decide

/-- Counterexample for C3 as stated (`for all N and size`): at `size = 0` the
source loop never advances its index and diverges on any non-empty array, so
no chunk list at all is produced — in particular none whose concatenation
restores the input. -/
theorem c3_chunk_counterexample :
    ¬ ∃ cs : List (List Nat), chunkArray [0] 0 = some cs ∧ cs.join = [0] := by
  intro h
  rcases h with ⟨cs, hcs, _⟩
  simp [chunkArray, chunkArrayGo] at hcs

/-! ### Legal articles and the token-budget batcher -/

/-- The two German legal code sources. -/
inductive LegalSource where
  | BGB
  | HGB
deriving DecidableEq, Repr, BEq

/-- A legal article as loaded from the corpus (`LegalArticle` in the source;
the `type` field is called `typ` because `type` reads poorly in Lean). -/
structure LegalArticle where
  typ : String
  id : String
  name : String
  title : Option String
  body : Option String
  source : LegalSource
deriving DecidableEq, Repr

/-- `approximateTokenCount`: `Math.ceil(text.length / 4)`. -/
def approximateTokenCount (text : String) : Nat := (text.length + 3) / 4

/-- The text whose cost `batchByTokenLimit` measures:
`` `${article.name} ${article.title || ""} ${article.body || ""}` ``. -/
def articleBatchText (a : LegalArticle) : String :=
  a.name ++ " " ++ jsOr a.title "" ++ " " ++ jsOr a.body ""

/-- Per-article cost used by the batcher. -/
def articleBatchCost (a : LegalArticle) : Nat :=
  approximateTokenCount (articleBatchText a)

/-- Summed batcher cost of a batch. -/
def batchCost (b : List LegalArticle) : Nat := (b.map articleBatchCost).sum

/-- Loop of `batchByTokenLimit`, carrying `currentBatch` and `currentTokens`.
An article opens a new batch exactly when adding it would exceed the limit
and the current batch is non-empty; the final non-empty batch is closed after
the loop. -/
def batchByTokenLimitGo (tokenLimit : Nat) :
    List LegalArticle → List LegalArticle → Nat → List (List LegalArticle)
  | [], currentBatch, _ => if currentBatch.isEmpty then [] else [currentBatch]
  | article :: rest, currentBatch, currentTokens =>
    let articleTokens := articleBatchCost article
    if currentTokens + articleTokens > tokenLimit ∧ ¬ currentBatch.isEmpty then
      currentBatch :: batchByTokenLimitGo tokenLimit rest [article] articleTokens
    else
      batchByTokenLimitGo tokenLimit rest (currentBatch ++ [article]) (currentTokens + articleTokens)

/-- Embedding of `LegalComplianceWorkflow.batchByTokenLimit`. -/
def batchByTokenLimit (articles : List LegalArticle) (tokenLimit : Nat) :
    List (List LegalArticle) :=
  batchByTokenLimitGo tokenLimit articles [] 0

theorem batchByTokenLimitGo_sound (tokenLimit : Nat) :
    ∀ (rest currentBatch : List LegalArticle),
      (2 ≤ currentBatch.length → batchCost currentBatch ≤ tokenLimit) →
      ∀ b ∈ batchByTokenLimitGo tokenLimit rest currentBatch (batchCost currentBatch),
        2 ≤ b.length → batchCost b ≤ tokenLimit := by
  intro rest
  induction rest with
  | nil =>
    intro currentBatch hcur b hb
    simp only [batchByTokenLimitGo] at hb
    split at hb
    · simp at hb
    · simp only [List.mem_singleton] at hb
      subst hb
      exact hcur
  | cons article rest ih =>
    intro currentBatch hcur b hb
    simp only [batchByTokenLimitGo] at hb
    split at hb
    next hcond =>
      simp only [List.mem_cons] at hb
      rcases hb with rfl | hb
      · exact hcur
      · have hsingle : batchCost [article] = articleBatchCost article := by
          simp [batchCost]
        have h1 := ih [article] (by intro h2; simp at h2)
        rw [hsingle] at h1
        exact h1 b hb
    next hcond =>
      have happ : batchCost (currentBatch ++ [article]) =
          batchCost currentBatch + articleBatchCost article := by
        simp [batchCost]
      have hnext : 2 ≤ (currentBatch ++ [article]).length →
          batchCost (currentBatch ++ [article]) ≤ tokenLimit := by
        intro h2
        rw [happ]
        by_cases hemp : currentBatch.isEmpty
        · rw [List.isEmpty_iff] at hemp
          subst hemp
          simp at h2
        · have hle : ¬ batchCost currentBatch + articleBatchCost article > tokenLimit :=
            fun hgt => hcond ⟨hgt, hemp⟩
          omega
      have h1 := ih (currentBatch ++ [article]) hnext
      rw [happ] at h1
      exact h1 b hb

theorem batchByTokenLimitGo_join (tokenLimit : Nat) :
    ∀ (rest currentBatch : List LegalArticle) (currentTokens : Nat),
      (batchByTokenLimitGo tokenLimit rest currentBatch currentTokens).join =
        currentBatch ++ rest := by
  intro rest
  induction rest with
  | nil =>
    intro currentBatch currentTokens
    simp only [batchByTokenLimitGo]
    split
    next h =>
      rw [List.isEmpty_iff] at h
      simp [h]
    next h => simp
  | cons article rest ih =>
    intro currentBatch currentTokens
    simp only [batchByTokenLimitGo]
    split
    · simp [ih]
    · simp [ih]

/-- C2: `batchByTokenLimit` never produces a batch of two or more articles
whose summed approximate token cost exceeds the budget; any batch containing
an article whose own cost exceeds the budget is that article alone; and the
concatenation of the batches is the input list (no article is split, dropped
or duplicated). -/
theorem c2_token_batcher (articles : List LegalArticle) (tokenLimit : Nat) :
    (∀ b ∈ batchByTokenLimit articles tokenLimit,
      (2 ≤ b.length → batchCost b ≤ tokenLimit) ∧
      (∀ a ∈ b, tokenLimit < articleBatchCost a → b = [a])) ∧
    (batchByTokenLimit articles tokenLimit).join = articles := by
  constructor
  · intro b hb
    have hbound : 2 ≤ b.length → batchCost b ≤ tokenLimit := by
      have h0 : batchCost [] = 0 := by simp [batchCost]
      have h1 := batchByTokenLimitGo_sound tokenLimit articles []
        (by intro h2; simp at h2)
      rw [h0] at h1
      exact h1 b hb
    refine ⟨hbound, ?_⟩
    intro a ha hcost
    by_cases h2 : 2 ≤ b.length
    · exfalso
      have hsum : articleBatchCost a ≤ batchCost b :=
        List.single_le_sum (fun x _ => Nat.zero_le x) _ (List.mem_map_of_mem _ ha)
      have := hbound h2
      omega
    · match b, ha with
      | [x], ha =>
        simp only [List.mem_singleton] at ha
        subst ha
        rfl
      | x :: y :: t, _ => simp at h2
  · exact batchByTokenLimitGo_join tokenLimit articles [] 0

/-- Small concrete articles for the C2 witness: two cheap articles that share
a batch and one over-budget article that sits alone. -/
def wArtSmall1 : LegalArticle := ⟨"article", "s1", "§ 1", none, some "ab", .HGB⟩

/-- Second cheap witness article. -/
def wArtSmall2 : LegalArticle := ⟨"article", "s2", "§ 2", none, some "cd", .HGB⟩

/-- Over-budget witness article (batch text well above the witness budget). -/
def wArtBig : LegalArticle :=
  ⟨"article", "b", "§ 3", none, some "0123456789012345678901234567890123456789", .HGB⟩

/-- Witness for C2 at a concrete input: with budget 6 the two small articles
share one batch (cost within budget) and the oversized article forms its own
singleton batch even though its cost exceeds the budget. -/
theorem c2_token_batcher_witness :
    batchCost [wArtSmall1, wArtSmall2] ≤ 6 ∧ [wArtBig] = [wArtBig] := by
  have h := c2_token_batcher [wArtSmall1, wArtSmall2, wArtBig] 6
  refine ⟨?_, ?_⟩
  · exact ((h.1 [wArtSmall1, wArtSmall2] (by decide)).1) (by decide)
  · exact (h.1 [wArtBig] (by decide)).2 wArtBig (by decide) (by decide)

/-! ### Phase-1 greedy article selection -/

/-- Token limits from `legal-compliance.ts` (`TOKEN_LIMIT`,
`PHASE1_CONTRACT_TOKENS`, `PHASE1_LEGAL_TOKENS`). -/
def TOKEN_LIMIT : Nat := 200000

/-- Token sub-budget for the contract blocks in a Phase 1 prompt. -/
def PHASE1_CONTRACT_TOKENS : Nat := 40000

/-- Token sub-budget for the legal context in a Phase 1 prompt. -/
def PHASE1_LEGAL_TOKENS : Nat := 160000

/-- Suffix after the first `'>'` of a list, if any; used to embed one match of
the regex `<[^>]*>` (which extends from a `'<'` to the first following
`'>'`). -/
def splitAfterGt : List Char → Option (List Char)
  | [] => none
  | c :: cs => if c = '>' then some cs else splitAfterGt cs

/-- Fuel-driven embedding of `text.replace(/<[^​>]*>/g, " ")`: every maximal
`<...>` segment (up to the first `'>'`) becomes one space; a `'<'` with no
later `'>'` matches nothing and is kept.  Each step consumes at least one
character, so fuel `= length` suffices. -/
def stripTagsGo : Nat → List Char → List Char
  | _, [] => []
  | 0, l => l
  | fuel + 1, c :: cs =>
    if c = '<' then
      match splitAfterGt cs with
      | some rest => ' ' :: stripTagsGo fuel rest
      | none => c :: stripTagsGo fuel cs
    else c :: stripTagsGo fuel cs

/-- String-level tag stripping, as applied to article bodies. -/
def stripTags (s : String) : String := String.mk (stripTagsGo s.data.length s.data)

/-- Whitespace for the embedding of JavaScript `String.prototype.trim`. -/
def isJsWhitespace (c : Char) : Bool :=
  c = ' ' || c = '\t' || c = '\n' || c = '\r'

/-- Embedding of `text.trim()`: drop whitespace from both ends. -/
def jsTrim (s : String) : String :=
  String.mk (((s.data.dropWhile isJsWhitespace).reverse.dropWhile isJsWhitespace).reverse)

/-- `article.body?.replace(/<[^​>]*>/g, " ").trim() || ""` from the selection
loop and the prompt construction. -/
def articleSelectionBody (a : LegalArticle) : String :=
  match a.body with
  | none => ""
  | some s => jsTrim (stripTags s)

/-- Rendered source name of a legal code. -/
def sourceName : LegalSource → String
  | .BGB => "BGB"
  | .HGB => "HGB"

/-- The selection-side rendered text
`` `[${article.source}] ${article.name} - ${article.title || "Untitled"}:\n${body}` ``. -/
def articleSelectionText (a : LegalArticle) : String :=
  "[" ++ sourceName a.source ++ "] " ++ a.name ++ " - " ++ jsOr a.title "Untitled"
    ++ ":\n" ++ articleSelectionBody a

/-- Per-article cost used by the Phase 1 selection loop. -/
def articleSelectionCost (a : LegalArticle) : Nat :=
  approximateTokenCount (articleSelectionText a)

/-- Summed selection cost of a list of articles. -/
def selectionCost (l : List LegalArticle) : Nat := (l.map articleSelectionCost).sum

/-- Inner loop of the Phase 1 selection: walk one pre-batched group, adding
whole articles while they fit, and stop at the first article that would
exceed the budget (`break`).  Returns the selected articles of this group and
the updated running total. -/
def selectFromBatch (budget : Nat) : List LegalArticle → Nat → List LegalArticle × Nat
  | [], currentTokens => ([], currentTokens)
  | a :: rest, currentTokens =>
    let articleTokens := articleSelectionCost a
    if currentTokens + articleTokens > budget then ([], currentTokens)
    else
      let p := selectFromBatch budget rest (currentTokens + articleTokens)
      (a :: p.1, p.2)

/-- Outer loop of the Phase 1 selection: after each group, stop only when the
running total has reached the budget (`currentLegalTokens >= PHASE1_LEGAL_TOKENS`);
otherwise move on to the next group even if the previous group was cut short. -/
def selectLegalArticlesGo (budget : Nat) :
    List (List LegalArticle) → Nat → List LegalArticle
  | [], _ => []
  | batch :: batches, currentTokens =>
    let p := selectFromBatch budget batch currentTokens
    if p.2 ≥ budget then p.1
    else p.1 ++ selectLegalArticlesGo budget batches p.2

/-- Embedding of the article-selection double loop of
`identifyRelevantArticlesBatch`, at the source's fixed sub-budget. -/
def selectLegalArticles (legalBatches : List (List LegalArticle)) : List LegalArticle :=
  selectLegalArticlesGo PHASE1_LEGAL_TOKENS legalBatches 0

theorem selectFromBatch_spec (budget : Nat) :
    ∀ (batch : List LegalArticle) (currentTokens : Nat),
      currentTokens ≤ budget →
      (selectFromBatch budget batch currentTokens).2 =
        currentTokens + selectionCost (selectFromBatch budget batch currentTokens).1 ∧
      (selectFromBatch budget batch currentTokens).2 ≤ budget ∧
      List.Sublist (selectFromBatch budget batch currentTokens).1 batch := by
  intro batch
  induction batch with
  | nil =>
    intro currentTokens hle
    refine ⟨by simp [selectFromBatch, selectionCost], hle, by simp [selectFromBatch]⟩
  | cons a rest ih =>
    intro currentTokens hle
    simp only [selectFromBatch]
    split
    next h => exact ⟨by simp [selectionCost], hle, List.nil_sublist _⟩
    next h =>
      have hfit : currentTokens + articleSelectionCost a ≤ budget := by omega
      have hrec := ih (currentTokens + articleSelectionCost a) hfit
      refine ⟨?_, hrec.2.1, List.Sublist.cons₂ a hrec.2.2⟩
      simp only [selectionCost, List.map_cons, List.sum_cons]
      rw [hrec.1]
      simp only [selectionCost]
      omega

theorem selectLegalArticlesGo_spec (budget : Nat) :
    ∀ (batches : List (List LegalArticle)) (currentTokens : Nat),
      currentTokens ≤ budget →
      currentTokens + selectionCost (selectLegalArticlesGo budget batches currentTokens) ≤ budget ∧
      List.Sublist (selectLegalArticlesGo budget batches currentTokens) batches.join := by
  intro batches
  induction batches with
  | nil =>
    intro currentTokens hle
    refine ⟨by simpa [selectLegalArticlesGo, selectionCost] using hle, by simp [selectLegalArticlesGo]⟩
  | cons batch batches ih =>
    intro currentTokens hle
    simp only [selectLegalArticlesGo]
    have hb := selectFromBatch_spec budget batch currentTokens hle
    split
    next h =>
      refine ⟨by omega, ?_⟩
      exact hb.2.2.trans (List.sublist_append_left _ _)
    next h =>
      have hrec := ih (selectFromBatch budget batch currentTokens).2 hb.2.1
      constructor
      · simp only [selectionCost, List.map_append, List.sum_append]
        have h1 := hb.1
        have h2 := hrec.1
        simp only [selectionCost] at h1 h2
        omega
      · exact List.Sublist.append hb.2.2 hrec.2

/-- C4 (amended): the Phase 1 selection picks whole articles, in order, and
its total selection cost never exceeds `PHASE1_LEGAL_TOKENS`; the selected
articles are an (order-preserving) sublist of the flattened pre-batched
sequence.  They are *not* in general a prefix of that sequence and articles
after the first over-budget one *can* be selected, because the inner `break`
only skips the rest of the current pre-batched group — see
`c4_selection_counterexample`. -/
theorem c4_selection_amended (legalBatches : List (List LegalArticle)) :
    selectionCost (selectLegalArticles legalBatches) ≤ PHASE1_LEGAL_TOKENS ∧
    List.Sublist (selectLegalArticles legalBatches) legalBatches.join := by
  have h := selectLegalArticlesGo_spec PHASE1_LEGAL_TOKENS legalBatches 0 (by simp)
  rw [show selectLegalArticles legalBatches =
    selectLegalArticlesGo PHASE1_LEGAL_TOKENS legalBatches 0 from rfl]
  exact ⟨by omega, h.2⟩

/-! ### Concrete articles refuting the prefix claim of the Phase 1 selection

The bodies are large plain-text strings (no `'<'`, no surrounding whitespace),
built with `List.replicate` so that their lengths are provable by rewriting
instead of evaluation. -/

/-- A plain string of `n` letters `a`. -/
def bigStr (n : Nat) : String := String.mk (List.replicate n 'a')

theorem bigStr_length (n : Nat) : (bigStr n).length = n := by
  simp [bigStr, String.length]

theorem bigStr_ne_empty (n : Nat) (h : 0 < n) : bigStr n ≠ "" := by
  intro he
  have h2 := congrArg String.length he
  rw [bigStr_length] at h2
  simp [String.length] at h2
  omega

theorem jsOr_some_bigStr (n : Nat) (h : 0 < n) (d : String) :
    jsOr (some (bigStr n)) d = bigStr n := by
  simp only [jsOr, if_neg (bigStr_ne_empty n h)]

theorem jsOr_none_eq (d : String) : jsOr none d = d := rfl

theorem stripTagsGo_replicate : ∀ (n fuel : Nat), n ≤ fuel →
    stripTagsGo fuel (List.replicate n 'a') = List.replicate n 'a' := by
  intro n
  induction n with
  | zero => intro fuel _; cases fuel <;> rfl
  | succ n ih =>
    intro fuel hn
    match fuel with
    | 0 => omega
    | fuel + 1 =>
      rw [List.replicate_succ]
      simp only [stripTagsGo, if_neg (by decide : ¬ ('a' = '<'))]
      rw [ih fuel (by omega)]

theorem stripTags_bigStr (n : Nat) : stripTags (bigStr n) = bigStr n := by
  simp only [stripTags, bigStr]
  rw [stripTagsGo_replicate n _ (by simp)]

theorem dropWhile_replicate_a (n : Nat) :
    (List.replicate n 'a').dropWhile isJsWhitespace = List.replicate n 'a' := by
  match n with
  | 0 => rfl
  | n + 1 =>
    rw [List.replicate_succ, List.dropWhile_cons]
    simp [isJsWhitespace]

theorem jsTrim_bigStr (n : Nat) : jsTrim (bigStr n) = bigStr n := by
  simp only [jsTrim, bigStr, dropWhile_replicate_a, List.reverse_replicate]

/-- First counterexample article: batch cost 100001, selection cost 100005. -/
def cexArtA : LegalArticle := ⟨"article", "a", "A", none, some (bigStr 400000), .HGB⟩

/-- Second counterexample article (the over-budget one in the selection):
batch cost 150001, selection cost 150005. -/
def cexArtB : LegalArticle := ⟨"article", "b", "B", none, some (bigStr 600000), .HGB⟩

/-- Third counterexample article: batch cost 59001, selection cost 59005. -/
def cexArtC : LegalArticle := ⟨"article", "c", "C", none, some (bigStr 236000), .HGB⟩

theorem strLen_one_letter : ("A" : String).length = 1 := rfl

theorem cexArtA_batchText :
    articleBatchText cexArtA = "A" ++ " " ++ "" ++ " " ++ bigStr 400000 := by
  show "A" ++ " " ++ jsOr none "" ++ " " ++ jsOr (some (bigStr 400000)) "" = _
  rw [jsOr_some_bigStr 400000 (by norm_num), jsOr_none_eq]

theorem cexArtB_batchText :
    articleBatchText cexArtB = "B" ++ " " ++ "" ++ " " ++ bigStr 600000 := by
  show "B" ++ " " ++ jsOr none "" ++ " " ++ jsOr (some (bigStr 600000)) "" = _
  rw [jsOr_some_bigStr 600000 (by norm_num), jsOr_none_eq]

theorem cexArtC_batchText :
    articleBatchText cexArtC = "C" ++ " " ++ "" ++ " " ++ bigStr 236000 := by
  show "C" ++ " " ++ jsOr none "" ++ " " ++ jsOr (some (bigStr 236000)) "" = _
  rw [jsOr_some_bigStr 236000 (by norm_num), jsOr_none_eq]

theorem cexArtA_batchCost : articleBatchCost cexArtA = 100001 := by
  rw [articleBatchCost, approximateTokenCount, cexArtA_batchText]
  simp only [String.length_append, bigStr_length]
  rfl

theorem cexArtB_batchCost : articleBatchCost cexArtB = 150001 := by
  rw [articleBatchCost, approximateTokenCount, cexArtB_batchText]
  simp only [String.length_append, bigStr_length]
  rfl

theorem cexArtC_batchCost : articleBatchCost cexArtC = 59001 := by
  rw [articleBatchCost, approximateTokenCount, cexArtC_batchText]
  simp only [String.length_append, bigStr_length]
  rfl

theorem cexArtA_selText :
    articleSelectionText cexArtA =
      "[" ++ "HGB" ++ "] " ++ "A" ++ " - " ++ "Untitled" ++ ":\n" ++ bigStr 400000 := by
  show "[" ++ sourceName .HGB ++ "] " ++ "A" ++ " - " ++ jsOr none "Untitled" ++ ":\n"
      ++ articleSelectionBody cexArtA = _
  rw [jsOr_none_eq,
    show articleSelectionBody cexArtA = jsTrim (stripTags (bigStr 400000)) from rfl,
    stripTags_bigStr, jsTrim_bigStr,
    show sourceName .HGB = "HGB" from rfl]

theorem cexArtB_selText :
    articleSelectionText cexArtB =
      "[" ++ "HGB" ++ "] " ++ "B" ++ " - " ++ "Untitled" ++ ":\n" ++ bigStr 600000 := by
  show "[" ++ sourceName .HGB ++ "] " ++ "B" ++ " - " ++ jsOr none "Untitled" ++ ":\n"
      ++ articleSelectionBody cexArtB = _
  rw [jsOr_none_eq,
    show articleSelectionBody cexArtB = jsTrim (stripTags (bigStr 600000)) from rfl,
    stripTags_bigStr, jsTrim_bigStr,
    show sourceName .HGB = "HGB" from rfl]

theorem cexArtC_selText :
    articleSelectionText cexArtC =
      "[" ++ "HGB" ++ "] " ++ "C" ++ " - " ++ "Untitled" ++ ":\n" ++ bigStr 236000 := by
  show "[" ++ sourceName .HGB ++ "] " ++ "C" ++ " - " ++ jsOr none "Untitled" ++ ":\n"
      ++ articleSelectionBody cexArtC = _
  rw [jsOr_none_eq,
    show articleSelectionBody cexArtC = jsTrim (stripTags (bigStr 236000)) from rfl,
    stripTags_bigStr, jsTrim_bigStr,
    show sourceName .HGB = "HGB" from rfl]

theorem cexArtA_selCost : articleSelectionCost cexArtA = 100005 := by
  rw [articleSelectionCost, approximateTokenCount, cexArtA_selText]
  simp only [String.length_append, bigStr_length]
  rfl

theorem cexArtB_selCost : articleSelectionCost cexArtB = 150005 := by
  rw [articleSelectionCost, approximateTokenCount, cexArtB_selText]
  simp only [String.length_append, bigStr_length]
  rfl

theorem cexArtC_selCost : articleSelectionCost cexArtC = 59005 := by
  rw [articleSelectionCost, approximateTokenCount, cexArtC_selText]
  simp only [String.length_append, bigStr_length]
  rfl

/-- With the source's batching budget (200k) the three articles land in three
separate pre-batched groups. -/
theorem cexBatches_eval :
    batchByTokenLimit [cexArtA, cexArtB, cexArtC] TOKEN_LIMIT =
      [[cexArtA], [cexArtB], [cexArtC]] := by
  rw [batchByTokenLimit, TOKEN_LIMIT]
  rw [batchByTokenLimitGo, cexArtA_batchCost]
  have hc1 : ¬ (0 + 100001 > 200000 ∧ ¬([] : List LegalArticle).isEmpty = true) := by simp
  rw [if_neg hc1, List.nil_append, Nat.zero_add]
  rw [batchByTokenLimitGo, cexArtB_batchCost]
  have hc2 : 100001 + 150001 > 200000 ∧ ¬([cexArtA] : List LegalArticle).isEmpty = true := by
    simp
  rw [if_pos hc2]
  rw [batchByTokenLimitGo, cexArtC_batchCost]
  have hc3 : 150001 + 59001 > 200000 ∧ ¬([cexArtB] : List LegalArticle).isEmpty = true := by
    simp
  rw [if_pos hc3]
  rw [batchByTokenLimitGo]
  have hc4 : ¬ ([cexArtC] : List LegalArticle).isEmpty = true := by simp
  rw [if_neg hc4]

theorem cexSelectA : selectFromBatch 160000 [cexArtA] 0 = ([cexArtA], 100005) := by
  rw [selectFromBatch, cexArtA_selCost]
  rw [if_neg (by omega : ¬ (0 + 100005 > 160000))]
  rw [selectFromBatch]

theorem cexSelectB : selectFromBatch 160000 [cexArtB] 100005 = ([], 100005) := by
  rw [selectFromBatch, cexArtB_selCost]
  rw [if_pos (by omega : 100005 + 150005 > 160000)]

theorem cexSelectC : selectFromBatch 160000 [cexArtC] 100005 = ([cexArtC], 159010) := by
  rw [selectFromBatch, cexArtC_selCost]
  rw [if_neg (by omega : ¬ (100005 + 59005 > 160000))]
  rw [selectFromBatch]

/-- The greedy selection over those groups picks `A`, breaks on the
over-budget `B`, and then still picks `C` from the next group. -/
theorem cexSelection_eval :
    selectLegalArticles [[cexArtA], [cexArtB], [cexArtC]] = [cexArtA, cexArtC] := by
  rw [selectLegalArticles, PHASE1_LEGAL_TOKENS]
  rw [selectLegalArticlesGo, cexSelectA]
  rw [if_neg (by simp : ¬ (([cexArtA], 100005).2 ≥ 160000))]
  show [cexArtA] ++ selectLegalArticlesGo 160000 [[cexArtB], [cexArtC]] 100005 =
    [cexArtA, cexArtC]
  rw [selectLegalArticlesGo, cexSelectB]
  rw [if_neg (by simp : ¬ ((([] : List LegalArticle), 100005).2 ≥ 160000))]
  show [cexArtA] ++ ([] ++ selectLegalArticlesGo 160000 [[cexArtC]] 100005) =
    [cexArtA, cexArtC]
  rw [selectLegalArticlesGo, cexSelectC]
  rw [if_neg (by simp : ¬ (([cexArtC], 159010).2 ≥ 160000))]
  show [cexArtA] ++ ([] ++ ([cexArtC] ++ selectLegalArticlesGo 160000 [] 159010)) =
    [cexArtA, cexArtC]
  rw [selectLegalArticlesGo]
  rfl

/-- Counterexample for C4 as stated: for the concrete ordered article sequence
`[A, B, C]` (pre-batched by `batchByTokenLimit` at the source's 200k budget),
the Phase 1 selection returns `[A, C]`, which is not a prefix of `[A, B, C]` —
article `C`, which comes after the first over-budget article `B`, is still
selected, because the inner `break` only skips the rest of `B`'s group. -/
theorem c4_selection_counterexample :
    selectLegalArticles (batchByTokenLimit [cexArtA, cexArtB, cexArtC] TOKEN_LIMIT) =
      [cexArtA, cexArtC] ∧
    ¬ ∃ k, [cexArtA, cexArtC] = List.take k [cexArtA, cexArtB, cexArtC] := by
  constructor
  · rw [cexBatches_eval, cexSelection_eval]
  · rintro ⟨k, hk⟩
    have hlen := congrArg List.length hk
    simp only [List.length_take, List.length_cons, List.length_nil] at hlen
    have hk2 : k = 2 := by omega
    subst hk2
    rw [show List.take 2 [cexArtA, cexArtB, cexArtC] = [cexArtA, cexArtB] from rfl] at hk
    injection hk with h1 h2
    injection h2 with h3 h4
    have h5 := congrArg LegalArticle.name h3
    rw [show cexArtC.name = "C" from rfl, show cexArtB.name = "B" from rfl] at h5
    exact absurd h5 (by decide)

/-! ### Common workflow infrastructure

The `run` methods are embedded as pure functions from an oracle (the outcomes
of the external calls: R2 fetches, inference calls, the structured-output
pass) to the ordered list of job-store writes they perform plus the returned
value.  A thrown JavaScript exception is `Except.error`; `step.do` replay is
not modelled (a single uninterrupted execution is).  Job writes record the
four job fields the claims are about (`status`, `currentStage`, `progress`,
`errorMessage`); payload fields (`results`, `summary`, `title`) are carried
in the run's return value instead. -/

/-- A thrown JavaScript value: an `Error` with a message, or anything else. -/
inductive JsError where
  | mk (message : String)
  | nonError
deriving DecidableEq, Repr

/-- `error instanceof Error ? error.message : "Unknown error occurred"`
(the outermost catch of both workflows). -/
def jsErrorMessage : JsError → String
  | .mk m => m
  | .nonError => "Unknown error occurred"

/-- `error instanceof Error ? error.message : "Unknown error"` (the inner
wrapping catches). -/
def jsErrorMessageShort : JsError → String
  | .mk m => m
  | .nonError => "Unknown error"

/-- Re-throw pattern `throw new Error(prefixStr + message)`. -/
def wrapError (prefixStr : String) (e : JsError) : JsError :=
  .mk (prefixStr ++ jsErrorMessageShort e)

/-- Job status column values. -/
inductive JobStatus where
  | pending
  | inProgress
  | completed
  | failed
deriving DecidableEq, Repr

/-- One partial update of the job record (`db.update(...).set({...})`);
`none` fields are not written by that update. -/
structure JobUpdate where
  status : Option JobStatus := none
  currentStage : Option String := none
  progress : Option Nat := none
  errorMessage : Option String := none
deriving DecidableEq, Repr

/-- Observable events of a run: a job-store write, or the start of a named
workflow step (used for the batch steps of the compliance pipeline). -/
inductive WfEvent where
  | write (u : JobUpdate)
  | stepStart (name : String)
deriving DecidableEq, Repr

/-- The progress values written by a list of events, in order. -/
def progressWrites (evs : List WfEvent) : List Nat :=
  evs.filterMap fun ev =>
    match ev with
    | .write u => u.progress
    | .stepStart _ => none

/-- The job status after folding a list of events over an initial status. -/
def statusAfter (evs : List WfEvent) : JobStatus :=
  evs.foldl (fun st ev =>
    match ev with
    | .write u => u.status.getD st
    | .stepStart _ => st) .pending

/-- `Promise.all`: all promises are started; the join rejects with the first
rejection, otherwise yields the results in input order. -/
def collectResults : List (Except JsError α) → Except JsError (List α)
  | [] => .ok []
  | .error e :: _ => .error e
  | .ok a :: rest => (collectResults rest).map (fun l => a :: l)

/-! ### Document-analysis pipeline (pdf-parser.ts) -/

/-- A paragraph as returned by the extraction model (`result.object.paragraphs`). -/
structure RawParagraph where
  paragraph : String
  content : String
deriving DecidableEq, Repr

/-- `ContractBlock` from `types.ts` (with the anchor id always generated). -/
structure ContractBlock where
  paragraph : String
  content : String
  pageNumber : Nat
  anchorId : String
deriving DecidableEq, Repr

/-- Review severity scale of the document pipeline. -/
inductive ReviewSeverity where
  | safe
  | medium
  | elevated
  | high
deriving DecidableEq, Repr

/-- The structured output of the risk-classification call in `reviewBlock`
(`result.object`); the model may return arbitrary integers for the span. -/
structure RawReview where
  severity : ReviewSeverity
  start : Int
  stop : Int
  comment : String
deriving DecidableEq, Repr

/-- `ContractBlockReview` from `types.ts` (`end` is called `stop`). -/
structure ContractBlockReview where
  blockIndex : Nat
  severity : ReviewSeverity
  start : Nat
  stop : Nat
  comment : String
deriving DecidableEq, Repr

/-- Page/anchor tagging done by `parsePdfPage` on the model's paragraphs:
`` anchorId: `p${page}-${index}` ``. -/
def tagPageBlocks (pageNumber : Nat) (paras : List RawParagraph) : List ContractBlock :=
  paras.mapIdx fun index b =>
    ⟨b.paragraph, b.content, pageNumber, "p" ++ toString pageNumber ++ "-" ++ toString index⟩

/-- Embedding of `parsePdfPage`: missing API key throws before the `try`;
a model failure is wrapped as `Failed to parse page N: ...`; success tags
each paragraph with the page number and a generated anchor id. -/
def parsePdfPage (hasApiKey : Bool) (oracleResult : Except JsError (List RawParagraph))
    (pageNumber : Nat) : Except JsError (List ContractBlock) :=
  if !hasApiKey then .error (.mk "OPENROUTER_API_KEY not configured")
  else
    match oracleResult with
    | .error e => .error (wrapError ("Failed to parse page " ++ toString pageNumber ++ ": ") e)
    | .ok paras => .ok (tagPageBlocks pageNumber paras)

/-- The span clamping of `reviewBlock`: clamp both ends into
`[0, content.length]`, swap if `start > end`, default a degenerate span to the
whole block for `safe` severity, and clamp `end` once more. -/
def clampReview (block : ContractBlock) (blockIndex : Nat) (r : RawReview) :
    ContractBlockReview :=
  let contentLength : Int := block.content.length
  let start0 : Int := max 0 (min r.start contentLength)
  let stop0 : Int := max 0 (min r.stop contentLength)
  let start1 : Int := if start0 > stop0 then stop0 else start0
  let stop1 : Int := if start0 > stop0 then start0 else stop0
  let start2 : Int := if r.severity = .safe ∧ (start1 = stop1 ∨ stop1 = 0) then 0 else start1
  let stop2 : Int := if r.severity = .safe ∧ (start1 = stop1 ∨ stop1 = 0) then contentLength else stop1
  let stop3 : Int := min stop2 contentLength
  ⟨blockIndex, r.severity, start2.toNat, stop3.toNat, r.comment⟩

/-- Embedding of `reviewBlock`: missing API key throws before the `try`; a
structured-output failure is caught and *re-thrown* wrapped as
`Failed to review block N: ...`; success returns the clamped review.  The
body awaits exactly one external call (`generateObject`); it calls no
hallucination-risk service. -/
def reviewBlock (hasApiKey : Bool) (block : ContractBlock) (blockIndex : Nat)
    (oracleResult : Except JsError RawReview) : Except JsError ContractBlockReview :=
  if !hasApiKey then .error (.mk "OPENROUTER_API_KEY not configured")
  else
    match oracleResult with
    | .error e => .error (wrapError ("Failed to review block " ++ toString blockIndex ++ ": ") e)
    | .ok r => .ok (clampReview block blockIndex r)

/-- The external services awaited in the body of `reviewBlock`
(pdf-parser.ts lines 444-563): a single `generateObject` inference call. -/
inductive ExternalService where
  | generateTextCall
  | generateObjectCall
  | antihalEstimateCall
  | blobFetchCall
deriving DecidableEq, Repr

/-- The (only) external call in the source of `reviewBlock`. -/
def reviewBlockExternalCalls : List ExternalService := [.generateObjectCall]

/-- Oracle for the document-analysis run: outcomes of every external call. -/
structure PdfOracle where
  hasApiKey : Bool
  pdfFetch : Except JsError Unit
  parsePage : Nat → Except JsError (List RawParagraph)
  reviewRaw : Nat → ContractBlock → Except JsError RawReview
  summary : List ContractBlockReview → List ContractBlock → Except JsError String

/-- One `parse-page-N` step: fetch the PDF from R2 (failure wrapped as
`Failed to fetch object from R2: ...`), then parse the page. -/
structure PageResult where
  pageNumber : Nat
  blocks : List ContractBlock
deriving DecidableEq, Repr

/-- Result of the `parse-page-N` step for one page. -/
def parsePageStep (o : PdfOracle) (pageNumber : Nat) : Except JsError PageResult :=
  match o.pdfFetch with
  | .error e => .error (wrapError "Failed to fetch object from R2: " e)
  | .ok _ =>
    (parsePdfPage o.hasApiKey (o.parsePage pageNumber) pageNumber).map
      (fun blocks => ⟨pageNumber, blocks⟩)

/-- `batchResults.sort((a, b) => a.pageNumber - b.pageNumber)`: the engine's
sort is stable and, for the distinct page numbers of a wave, any
comparison sort yields the unique ordering by page number; insertion sort by
the page-number key models it. -/
def sortPageResults (l : List PageResult) : List PageResult :=
  List.insertionSort (fun a b => a.pageNumber ≤ b.pageNumber) l

/-- Wave aggregation in the Parse stage: sort the wave's results by page
number, then concatenate their block lists. -/
def wavePageBlocks (results : List PageResult) : List ContractBlock :=
  (sortPageResults results).bind PageResult.blocks

/-- The Parse wave loop: pages of each batch run in parallel, the joined
results are sorted by page number and appended, then the progress write
`round(50*(batchIndex+1)/totalBatches)` happens.  An error aborts the loop
before that batch's progress write. -/
def pdfParseLoop (o : PdfOracle) (totalBatches : Nat) :
    List (List Nat) → Nat → List ContractBlock →
      List WfEvent × Except JsError (List ContractBlock)
  | [], _, acc => ([], .ok acc)
  | pageBatch :: rest, batchIndex, acc =>
    match collectResults (pageBatch.map (parsePageStep o)) with
    | .error e => ([], .error e)
    | .ok results =>
      let acc2 := acc ++ wavePageBlocks results
      let ev := WfEvent.write
        { currentStage := some "parsing",
          progress := some (jsRound (50 * (batchIndex + 1)) totalBatches) }
      let rec2 := pdfParseLoop o totalBatches rest (batchIndex + 1) acc2
      (ev :: rec2.1, rec2.2)

/-- One review wave (`review-batch-N`): up to 30 blocks reviewed in parallel
with global indices `batchIndex * 30 + idx`. -/
def pdfReviewWave (o : PdfOracle) (batch : List ContractBlock) (batchIndex : Nat) :
    Except JsError (List ContractBlockReview) :=
  collectResults (batch.mapIdx fun idx block =>
    reviewBlock o.hasApiKey block (batchIndex * 30 + idx)
      (o.reviewRaw (batchIndex * 30 + idx) block))

/-- The Review wave loop with its `50 + round(50*(batchIndex+1)/totalBatches)`
progress writes. -/
def pdfReviewLoop (o : PdfOracle) (totalBatches : Nat) :
    List (List ContractBlock) → Nat → List ContractBlockReview →
      List WfEvent × Except JsError (List ContractBlockReview)
  | [], _, acc => ([], .ok acc)
  | batch :: rest, batchIndex, acc =>
    match pdfReviewWave o batch batchIndex with
    | .error e => ([], .error e)
    | .ok reviews =>
      let acc2 := acc ++ reviews
      let ev := WfEvent.write
        { currentStage := some "reviewing",
          progress := some (50 + jsRound (50 * (batchIndex + 1)) totalBatches) }
      let rec2 := pdfReviewLoop o totalBatches rest (batchIndex + 1) acc2
      (ev :: rec2.1, rec2.2)

/-- The consolidated results persisted by `finalize-results`. -/
structure PdfResults where
  totalPages : Nat
  totalBlocks : Nat
  blocks : List ContractBlock
  reviews : List ContractBlockReview
  documentSummary : Option String
deriving DecidableEq, Repr

/-- Outcome of the document run: the success payload, or the failure record
returned (not thrown) by `mark-workflow-failed`. -/
inductive PdfOutcome where
  | success (results : PdfResults)
  | failure (errorMessage : String)
deriving DecidableEq, Repr

/-- The final write of `finalize-results`. -/
def pdfFinalizeWrite : WfEvent :=
  .write { status := some .completed, currentStage := some "completed", progress := some 100 }

/-- The initial write of the document run (`update-status-parsing`). -/
def pdfStartWrite : WfEvent :=
  .write { status := some .inProgress, currentStage := some "parsing", progress := some 0 }

/-- The `update-status-reviewing` write. -/
def pdfReviewingWrite : WfEvent :=
  .write { currentStage := some "reviewing", progress := some 50 }

/-- The `update-status-summarizing` write (no progress value). -/
def pdfSummarizingWrite : WfEvent :=
  .write { currentStage := some "summarizing" }

/-- The summarize-and-finalize tail of the document run (after parsing and
reviewing succeeded). -/
def pdfSummarizeAndFinalize (o : PdfOracle) (totalPages : Nat)
    (allBlocks : List ContractBlock) (allReviews : List ContractBlockReview) :
    List WfEvent × Except JsError PdfResults :=
  if allReviews.isEmpty then
    ([pdfFinalizeWrite], .ok ⟨totalPages, allBlocks.length, allBlocks, allReviews, none⟩)
  else
    let evSum := pdfSummarizingWrite
    match o.summary allReviews allBlocks with
    | .error e =>
      ([evSum], .error (wrapError "Failed to generate document summary: " e))
    | .ok s =>
      ([evSum, pdfFinalizeWrite],
        .ok ⟨totalPages, allBlocks.length, allBlocks, allReviews, some s⟩)

/-- The body of `PdfParserWorkflow.run` up to (but excluding) the outer
catch: status writes, the Parse wave loop, the Review wave loop (skipped when
no blocks were produced), summarize (skipped when no reviews), finalize. -/
def pdfRunBody (o : PdfOracle) (totalPages : Nat) :
    List WfEvent × Except JsError PdfResults :=
  let ev0 := pdfStartWrite
  let pageBatches := chunks (List.range' 1 totalPages) 5
  let parse := pdfParseLoop o pageBatches.length pageBatches 0 []
  match parse.2 with
  | .error e => (ev0 :: parse.1, .error e)
  | .ok allBlocks =>
    let ev1 := pdfReviewingWrite
    if allBlocks.isEmpty then
      let tail := pdfSummarizeAndFinalize o totalPages allBlocks []
      (ev0 :: parse.1 ++ ev1 :: tail.1, tail.2)
    else
      let batches := chunks allBlocks 30
      let review := pdfReviewLoop o batches.length batches 0 []
      match review.2 with
      | .error e => (ev0 :: parse.1 ++ ev1 :: review.1, .error e)
      | .ok allReviews =>
        let tail := pdfSummarizeAndFinalize o totalPages allBlocks allReviews
        (ev0 :: parse.1 ++ ev1 :: review.1 ++ tail.1, tail.2)

/-- The failure write of `mark-workflow-failed` / `mark-compliance-failed`. -/
def failureWrite (msg : String) : WfEvent :=
  .write { status := some .failed, currentStage := some "error", errorMessage := some msg }

/-- Embedding of `PdfParserWorkflow.run`: the body wrapped in the outermost
guard, which converts any error into a `mark-workflow-failed` write and a
normally-returned failure value. -/
def pdfRun (o : PdfOracle) (totalPages : Nat) : List WfEvent × PdfOutcome :=
  match pdfRunBody o totalPages with
  | (evs, .ok results) => (evs, .success results)
  | (evs, .error e) =>
    let msg := jsErrorMessage e
    (evs ++ [failureWrite msg], .failure msg)

/-! ### Legal-compliance pipeline (legal-compliance.ts) -/

/-- Deployed source flags (`ENABLE_BGB`, `ENABLE_HGB`).  The run model takes
the flags as parameters so that the both-disabled configuration of C9 can be
stated; these constants record the deployed values. -/
def ENABLE_BGB : Bool := false

/-- Deployed value of the `ENABLE_HGB` flag. -/
def ENABLE_HGB : Bool := true

/-- `MAX_PARALLEL_PHASE1`. -/
def MAX_PARALLEL_PHASE1 : Nat := 50

/-- `MAX_PARALLEL_PHASE2`. -/
def MAX_PARALLEL_PHASE2 : Nat := 50

/-- `CONTRACT_BLOCKS_PER_BATCH`. -/
def CONTRACT_BLOCKS_PER_BATCH : Nat := 5

/-- A contract block as passed to the compliance workflow
(`LegalComplianceParams["contractBlocks"]`). -/
structure ComplianceBlock where
  paragraph : String
  content : String
  anchorId : String
deriving DecidableEq, Repr

/-- One identified relevant article of a Phase 1 block result. -/
structure RelevantArticle where
  articleName : String
  articleTitle : String
  source : LegalSource
  reason : String
deriving DecidableEq, Repr

/-- Per-block result of Phase 1 (`ArticleIdentificationResult.blockResults[i]`). -/
structure BlockResult where
  contractBlockIndex : Nat
  hasViolation : Bool
  relevantArticles : List RelevantArticle
  needsDeepReview : Bool
deriving DecidableEq, Repr

/-- `ArticleIdentificationResult`. -/
structure ArticleIdentificationResult where
  blockResults : List BlockResult
deriving DecidableEq, Repr

/-- Phase 2 severity scale. -/
inductive DeepSeverity where
  | safe
  | minor
  | moderate
  | critical
deriving DecidableEq, Repr, BEq

/-- `DeepAnalysisResult`. -/
structure DeepAnalysisResult where
  contractBlockIndex : Nat
  articleName : String
  articleTitle : String
  source : LegalSource
  severity : DeepSeverity
  violationDetails : String
  recommendation : String
deriving DecidableEq, Repr

/-- The structured output of the Phase 2 structuring pass (`result.object`). -/
structure DeepOutcome where
  severity : DeepSeverity
  violationDetails : String
  recommendation : String
deriving DecidableEq, Repr

/-- Truthiness of `item.body` in the corpus filter (`null`/empty are falsy). -/
def jsTruthyOpt : Option String → Bool
  | none => false
  | some s => s ≠ ""

/-- The corpus filter of `loadLegalCodes`:
`(data.contents || []).filter(item => item.type === "article" && item.body)`
followed by re-tagging the source. -/
def corpusFilter (items : List LegalArticle) (src : LegalSource) : List LegalArticle :=
  (items.filter fun it => it.typ = "article" && jsTruthyOpt it.body).map
    (fun it => { it with source := src })

/-- Body of `loadLegalCodes` inside its `try`: load each enabled corpus
(missing R2 object throws), and throw when no articles were loaded at all. -/
def loadLegalCodesCore (enableBGB enableHGB : Bool)
    (bgbObject hgbObject : Option (List LegalArticle)) :
    Except JsError (List LegalArticle) :=
  match (if enableBGB then some (bgbObject.map (corpusFilter · .BGB)) else none) with
  | some none => .error (.mk "BGB file not found in R2")
  | maybeBgb =>
    match (if enableHGB then some (hgbObject.map (corpusFilter · .HGB)) else none) with
    | some none => .error (.mk "HGB file not found in R2")
    | maybeHgb =>
      let allArticles :=
        (maybeBgb.getD none).getD [] ++ (maybeHgb.getD none).getD []
      if allArticles.isEmpty then
        .error (.mk "No legal codes are enabled. Please enable at least one of BGB or HGB.")
      else .ok allArticles

/-- Embedding of `loadLegalCodes`: the outer catch re-throws any error as
`Failed to load legal codes: ...`. -/
def loadLegalCodes (enableBGB enableHGB : Bool)
    (bgbObject hgbObject : Option (List LegalArticle)) :
    Except JsError (List LegalArticle) :=
  match loadLegalCodesCore enableBGB enableHGB bgbObject hgbObject with
  | .error e => .error (wrapError "Failed to load legal codes: " e)
  | .ok arts => .ok arts

/-- The all-"no violation" fallback `identifyRelevantArticlesBatch` returns
when the structuring pass fails. -/
def phase1SafeDefault (contractBlocks : List ComplianceBlock) (startBlockIndex : Nat) :
    ArticleIdentificationResult :=
  ⟨contractBlocks.mapIdx fun idx _ =>
    ⟨startBlockIndex + idx, false, [], false⟩⟩

/-- Embedding of `identifyRelevantArticlesBatch`: missing API key throws; the
greedy selection assembles the legal context (observable only through the
prompt, hence through the oracle outcomes); a free-text failure is wrapped as
a batch failure; a structuring failure is caught and replaced by the
all-"no violation" fallback. -/
def identifyRelevantArticlesBatch (hasApiKey : Bool)
    (contractBlocks : List ComplianceBlock) (startBlockIndex : Nat)
    (legalBatches : List (List LegalArticle))
    (textOutcome : Except JsError String)
    (structOutcome : Except JsError ArticleIdentificationResult) :
    Except JsError ArticleIdentificationResult :=
  if !hasApiKey then .error (.mk "OPENROUTER_API_KEY not configured")
  else
    let _selectedArticles := selectLegalArticles legalBatches
    match textOutcome with
    | .error e =>
      .error (wrapError
        ("Failed to identify articles for batch starting at " ++ toString startBlockIndex ++ ": ") e)
    | .ok _ =>
      match structOutcome with
      | .error _ => .ok (phase1SafeDefault contractBlocks startBlockIndex)
      | .ok r => .ok r

/-- Embedding of `performDeepAnalysis`: missing API key throws; an article
absent from the loaded corpus (exact `(name, source)` match) yields `none`
rather than an error; a free-text failure is wrapped as
`Failed deep analysis for block N: ...`; a structuring failure is re-thrown
as `Failed to structure deep analysis response: ...` and wrapped again by the
outer catch. -/
def performDeepAnalysis (hasApiKey : Bool) (blockIndex : Nat)
    (identifiedArticle : RelevantArticle) (allLegalArticles : List LegalArticle)
    (textOutcome : Except JsError String)
    (structOutcome : Except JsError DeepOutcome) :
    Except JsError (Option DeepAnalysisResult) :=
  if !hasApiKey then .error (.mk "OPENROUTER_API_KEY not configured")
  else
    match allLegalArticles.find? (fun a =>
        a.name == identifiedArticle.articleName && a.source == identifiedArticle.source) with
    | none => .ok none
    | some _ =>
      match textOutcome with
      | .error e =>
        .error (wrapError ("Failed deep analysis for block " ++ toString blockIndex ++ ": ") e)
      | .ok _ =>
        match structOutcome with
        | .error e =>
          .error (wrapError ("Failed deep analysis for block " ++ toString blockIndex ++ ": ")
            (wrapError "Failed to structure deep analysis response: " e))
        | .ok r =>
          .ok (some ⟨blockIndex, identifiedArticle.articleName, identifiedArticle.articleTitle,
            identifiedArticle.source, r.severity, r.violationDetails, r.recommendation⟩)

/-- A Phase 2 task: one `(block, article)` pair. -/
structure ReviewTask where
  blockIndex : Nat
  article : RelevantArticle
deriving DecidableEq, Repr

/-- Task derivation from the blocks flagged `needsDeepReview`: order-preserving
expansion into `(block, article)` pairs, dropping (and counting) articles
whose source is not among the available sources. -/
def deriveTasks (blocksNeedingReview : List BlockResult)
    (availableSources : List LegalSource) : List ReviewTask × Nat :=
  blocksNeedingReview.foldl (fun acc r =>
    r.relevantArticles.foldl (fun acc2 article =>
      if availableSources.contains article.source then
        (acc2.1 ++ [⟨r.contractBlockIndex, article⟩], acc2.2)
      else (acc2.1, acc2.2 + 1)) acc) ([], 0)

/-- The summary object assembled by `finalize-compliance-results`. -/
structure ComplianceSummary where
  totalBlocks : Nat
  blocksWithViolations : Nat
  criticalViolations : Nat
  moderateViolations : Nat
  minorViolations : Nat
deriving DecidableEq, Repr

/-- The consolidated results persisted by `finalize-compliance-results`. -/
structure ComplianceResults where
  phase1 : List BlockResult
  phase2 : List DeepAnalysisResult
  summary : ComplianceSummary
deriving DecidableEq, Repr

/-- Embedding of the `results` object of `finalize-compliance-results`:
`blocksWithViolations` counts Phase 1 results with `hasViolation`, and the
violation counters count Phase 2 results by severity (nothing counts
`safe`). -/
def buildComplianceResults (totalBlocks : Nat) (phase1Results : List BlockResult)
    (phase2Results : List DeepAnalysisResult) : ComplianceResults :=
  ⟨phase1Results, phase2Results,
    ⟨totalBlocks,
     (phase1Results.filter (fun r => r.hasViolation)).length,
     (phase2Results.filter (fun r => r.severity = DeepSeverity.critical)).length,
     (phase2Results.filter (fun r => r.severity = DeepSeverity.moderate)).length,
     (phase2Results.filter (fun r => r.severity = DeepSeverity.minor)).length⟩⟩

/-- Oracle for the compliance run: configuration, corpus objects, and the
per-batch / per-task inference outcomes. -/
structure ComplianceOracle where
  hasApiKey : Bool
  enableBGB : Bool
  enableHGB : Bool
  bgbObject : Option (List LegalArticle)
  hgbObject : Option (List LegalArticle)
  identifyText : Nat → Except JsError String
  identifyStruct : Nat → Except JsError ArticleIdentificationResult
  analyzeText : Nat → Except JsError String
  analyzeStruct : Nat → Except JsError DeepOutcome

/-- One `phase1-batch-N` step: load the legal codes inside the step, batch
them by `TOKEN_LIMIT`, then run the two-pass identification. -/
def phase1BatchStep (o : ComplianceOracle) (batch : List ComplianceBlock)
    (batchIndex : Nat) : Except JsError ArticleIdentificationResult :=
  match loadLegalCodes o.enableBGB o.enableHGB o.bgbObject o.hgbObject with
  | .error e => .error e
  | .ok legalArticles =>
    identifyRelevantArticlesBatch o.hasApiKey batch (batchIndex * CONTRACT_BLOCKS_PER_BATCH)
      (batchByTokenLimit legalArticles TOKEN_LIMIT)
      (o.identifyText batchIndex) (o.identifyStruct batchIndex)

/-- The Phase 1 wave loop: all steps of a wave start (they are dispatched by
`Promise.all`), the join propagates the first error, otherwise the batch
results are flattened and the `10 + round(40*(chunkIndex+1)/totalChunks)`
progress write happens. -/
def compliancePhase1Loop (o : ComplianceOracle) (totalChunks : Nat) :
    List (List (List ComplianceBlock × Nat)) → Nat → List BlockResult →
      List WfEvent × Except JsError (List BlockResult)
  | [], _, acc => ([], .ok acc)
  | chunk :: rest, chunkIndex, acc =>
    let starts := chunk.map fun p => WfEvent.stepStart ("phase1-batch-" ++ toString p.2)
    match collectResults (chunk.map fun p => phase1BatchStep o p.1 p.2) with
    | .error e => (starts, .error e)
    | .ok results =>
      let acc2 := acc ++ results.bind ArticleIdentificationResult.blockResults
      let ev := WfEvent.write
        { progress := some (10 + jsRound (40 * (chunkIndex + 1)) totalChunks) }
      let rec2 := compliancePhase1Loop o totalChunks rest (chunkIndex + 1) acc2
      (starts ++ ev :: rec2.1, rec2.2)

/-- One `phase2-task-N` step: load the legal codes inside the step, then run
the deep analysis for the task. -/
def phase2TaskStep (o : ComplianceOracle) (task : ReviewTask) (taskId : Nat) :
    Except JsError (Option DeepAnalysisResult) :=
  match loadLegalCodes o.enableBGB o.enableHGB o.bgbObject o.hgbObject with
  | .error e => .error e
  | .ok legalArticles =>
    performDeepAnalysis o.hasApiKey task.blockIndex task.article legalArticles
      (o.analyzeText taskId) (o.analyzeStruct taskId)

/-- The Phase 2 wave loop: task ids are `chunkIndex * MAX_PARALLEL_PHASE2 + idx`;
`null` results (missing article texts) are filtered out of the aggregate, then
the `50 + round(40*(chunkIndex+1)/totalChunks)` progress write happens. -/
def compliancePhase2Loop (o : ComplianceOracle) (totalChunks : Nat) :
    List (List ReviewTask) → Nat → List DeepAnalysisResult →
      List WfEvent × Except JsError (List DeepAnalysisResult)
  | [], _, acc => ([], .ok acc)
  | chunk :: rest, chunkIndex, acc =>
    let starts := chunk.mapIdx fun idx _ =>
      WfEvent.stepStart ("phase2-task-" ++ toString (chunkIndex * MAX_PARALLEL_PHASE2 + idx))
    match collectResults (chunk.mapIdx fun idx task =>
        phase2TaskStep o task (chunkIndex * MAX_PARALLEL_PHASE2 + idx)) with
    | .error e => (starts, .error e)
    | .ok results =>
      let acc2 := acc ++ results.filterMap id
      let ev := WfEvent.write
        { progress := some (50 + jsRound (40 * (chunkIndex + 1)) totalChunks) }
      let rec2 := compliancePhase2Loop o totalChunks rest (chunkIndex + 1) acc2
      (starts ++ ev :: rec2.1, rec2.2)

/-- Outcome of the compliance run. -/
inductive ComplianceOutcome where
  | success (results : ComplianceResults)
  | failure (errorMessage : String)
deriving DecidableEq, Repr

/-- The initial write of the compliance run (`update-status-starting`). -/
def complianceStartWrite : WfEvent :=
  .write { status := some .inProgress, currentStage := some "compliance_check",
           progress := some 0 }

/-- The `update-status-phase1` write. -/
def compliancePhase1Write : WfEvent :=
  .write { currentStage := some "identifying_articles", progress := some 10 }

/-- The `update-status-phase2` write. -/
def compliancePhase2Write : WfEvent :=
  .write { currentStage := some "deep_analysis", progress := some 50 }

/-- The final write of `finalize-compliance-results`. -/
def complianceFinalizeWrite : WfEvent :=
  .write { status := some .completed, currentStage := some "compliance_completed",
           progress := some 100 }

/-- The body of `LegalComplianceWorkflow.run` up to the outer catch. -/
def complianceRunBody (o : ComplianceOracle) (contractBlocks : List ComplianceBlock) :
    List WfEvent × Except JsError ComplianceResults :=
  let ev0 := complianceStartWrite
  let ev1 := compliancePhase1Write
  let contractBatches := chunks contractBlocks CONTRACT_BLOCKS_PER_BATCH
  let indexed := contractBatches.mapIdx fun batchIndex batch => (batch, batchIndex)
  let processingChunks := chunks indexed MAX_PARALLEL_PHASE1
  let p1 := compliancePhase1Loop o processingChunks.length processingChunks 0 []
  match p1.2 with
  | .error e => (ev0 :: ev1 :: p1.1, .error e)
  | .ok phase1Results =>
    let ev2 := compliancePhase2Write
    let blocksNeedingReview := phase1Results.filter (fun r => r.needsDeepReview)
    if blocksNeedingReview.isEmpty then
      (ev0 :: ev1 :: p1.1 ++ [ev2, complianceFinalizeWrite],
        .ok (buildComplianceResults contractBlocks.length phase1Results []))
    else
      let availableSources :=
        (if o.enableBGB then [LegalSource.BGB] else []) ++
        (if o.enableHGB then [LegalSource.HGB] else [])
      let tasks := (deriveTasks blocksNeedingReview availableSources).1
      let reviewChunks := chunks tasks MAX_PARALLEL_PHASE2
      let p2 := compliancePhase2Loop o reviewChunks.length reviewChunks 0 []
      match p2.2 with
      | .error e => (ev0 :: ev1 :: p1.1 ++ ev2 :: p2.1, .error e)
      | .ok phase2Results =>
        (ev0 :: ev1 :: p1.1 ++ ev2 :: p2.1 ++ [complianceFinalizeWrite],
          .ok (buildComplianceResults contractBlocks.length phase1Results phase2Results))

/-- Embedding of `LegalComplianceWorkflow.run`: the body wrapped in the
outermost guard (`mark-compliance-failed`). -/
def complianceRun (o : ComplianceOracle) (contractBlocks : List ComplianceBlock) :
    List WfEvent × ComplianceOutcome :=
  match complianceRunBody o contractBlocks with
  | (evs, .ok results) => (evs, .success results)
  | (evs, .error e) =>
    let msg := jsErrorMessage e
    (evs ++ [failureWrite msg], .failure msg)

/-! ### C10: finalize summary counters -/

theorem deepSeverity_countP_partition : ∀ (p2 : List DeepAnalysisResult),
    p2.countP (fun r => r.severity = DeepSeverity.critical) +
    p2.countP (fun r => r.severity = DeepSeverity.moderate) +
    p2.countP (fun r => r.severity = DeepSeverity.minor) +
    p2.countP (fun r => r.severity = DeepSeverity.safe) = p2.length := by
  intro p2
  induction p2 with
  | nil => simp
  | cons r t ih =>
    simp only [List.countP_cons, List.length_cons]
    cases hr : r.severity <;> simp [hr] <;> omega

/-- C10: in the compliance finalize step, `summary.blocksWithViolations`
counts exactly the Phase 1 results with `hasViolation = true` (independently
of the Phase 2 list), each violation counter counts exactly the Phase 2
results with the matching severity, the three counters together count exactly
the non-`safe` Phase 2 results (so no counter counts `safe`), and the
persisted `phase2` list is the full Phase 2 aggregate including its `safe`
entries. -/
theorem c10_summary_counts (totalBlocks : Nat) (p1 : List BlockResult)
    (p2 p2' : List DeepAnalysisResult) :
    (buildComplianceResults totalBlocks p1 p2).summary.blocksWithViolations =
      p1.countP (fun r => r.hasViolation) ∧
    (buildComplianceResults totalBlocks p1 p2').summary.blocksWithViolations =
      (buildComplianceResults totalBlocks p1 p2).summary.blocksWithViolations ∧
    (buildComplianceResults totalBlocks p1 p2).phase1 = p1 ∧
    (buildComplianceResults totalBlocks p1 p2).phase2 = p2 ∧
    (buildComplianceResults totalBlocks p1 p2).summary.criticalViolations =
      p2.countP (fun r => r.severity = DeepSeverity.critical) ∧
    (buildComplianceResults totalBlocks p1 p2).summary.moderateViolations =
      p2.countP (fun r => r.severity = DeepSeverity.moderate) ∧
    (buildComplianceResults totalBlocks p1 p2).summary.minorViolations =
      p2.countP (fun r => r.severity = DeepSeverity.minor) ∧
    (buildComplianceResults totalBlocks p1 p2).summary.criticalViolations +
      (buildComplianceResults totalBlocks p1 p2).summary.moderateViolations +
      (buildComplianceResults totalBlocks p1 p2).summary.minorViolations +
      p2.countP (fun r => r.severity = DeepSeverity.safe) = p2.length := by
  refine ⟨?_, ?_, rfl, rfl, ?_, ?_, ?_, ?_⟩
  · simp [buildComplianceResults, List.countP_eq_length_filter]
  · simp [buildComplianceResults]
  · simp [buildComplianceResults, List.countP_eq_length_filter]
  · simp [buildComplianceResults, List.countP_eq_length_filter]
  · simp [buildComplianceResults, List.countP_eq_length_filter]
  · simp only [buildComplianceResults]
    rw [← List.countP_eq_length_filter, ← List.countP_eq_length_filter,
      ← List.countP_eq_length_filter]
    exact deepSeverity_countP_partition p2

/-! ### C5: structuring-failure policy per call site -/

theorem phase1SafeDefault_fields (contractBlocks : List ComplianceBlock)
    (startBlockIndex : Nat) :
    (phase1SafeDefault contractBlocks startBlockIndex).blockResults.length =
      contractBlocks.length ∧
    ∀ r ∈ (phase1SafeDefault contractBlocks startBlockIndex).blockResults,
      r.hasViolation = false ∧ r.relevantArticles = [] ∧ r.needsDeepReview = false := by
  constructor
  · simp [phase1SafeDefault]
  · intro r hr
    simp only [phase1SafeDefault, List.mem_mapIdx] at hr
    obtain ⟨i, hi, rfl⟩ := hr
    exact ⟨rfl, rfl, rfl⟩

/-- C5 (amended): when the structuring (`generateObject`) pass fails,
Phase 1 identification returns the all-"no violation" safe default for every
block of the affected batch and continues; Phase 2 deep analysis propagates
the failure as a (doubly wrapped) error; but the document-review call site
does *not* fall back — `reviewBlock`'s catch re-throws the error wrapped as
`Failed to review block N: ...`, so the review stage fails. -/
theorem c5_structuring_amended :
    (∀ (blocks : List ComplianceBlock) (startIdx : Nat) (lb : List (List LegalArticle))
        (t : String) (e : JsError),
      identifyRelevantArticlesBatch true blocks startIdx lb (.ok t) (.error e) =
        .ok (phase1SafeDefault blocks startIdx) ∧
      (phase1SafeDefault blocks startIdx).blockResults.length = blocks.length ∧
      ∀ r ∈ (phase1SafeDefault blocks startIdx).blockResults,
        r.hasViolation = false ∧ r.relevantArticles = [] ∧ r.needsDeepReview = false) ∧
    (∀ (block : ContractBlock) (idx : Nat) (e : JsError),
      reviewBlock true block idx (.error e) =
        .error (.mk ("Failed to review block " ++ toString idx ++ ": " ++
          jsErrorMessageShort e))) ∧
    (∀ (idx : Nat) (art : RelevantArticle) (arts : List LegalArticle)
        (t : String) (e : JsError),
      (arts.find? (fun a =>
        a.name == art.articleName && a.source == art.source)).isSome →
      performDeepAnalysis true idx art arts (.ok t) (.error e) =
        .error (.mk ("Failed deep analysis for block " ++ toString idx ++ ": " ++
          ("Failed to structure deep analysis response: " ++ jsErrorMessageShort e)))) := by
  refine ⟨?_, ?_, ?_⟩
  · intro blocks startIdx lb t e
    refine ⟨by simp [identifyRelevantArticlesBatch], phase1SafeDefault_fields blocks startIdx⟩
  · intro block idx e
    simp [reviewBlock, wrapError]
  · intro idx art arts t e hfind
    rw [Option.isSome_iff_exists] at hfind
    obtain ⟨a, ha⟩ := hfind
    simp [performDeepAnalysis, ha, wrapError, jsErrorMessageShort]

/-- A small concrete block for the C5 witness and counterexample. -/
def cexBlock5 : ContractBlock := ⟨"Section 1", "hello", 1, "p1-0"⟩

/-- A concrete corpus article matching the C5 witness task. -/
def cexFoundArt : LegalArticle := ⟨"article", "x", "§ 105", some "T", some "body", .HGB⟩

/-- Witness for C5 (amended) at concrete inputs: the Phase 1 fallback, the
review re-throw and the Phase 2 propagation, each evaluated. -/
theorem c5_structuring_witness :
    identifyRelevantArticlesBatch true [⟨"P", "c", "a0"⟩] 5 [] (.ok "text")
        (.error (.mk "bad json")) = .ok (phase1SafeDefault [⟨"P", "c", "a0"⟩] 5) ∧
    reviewBlock true cexBlock5 0 (.error (.mk "bad json")) =
      .error (.mk "Failed to review block 0: bad json") ∧
    performDeepAnalysis true 3 ⟨"§ 105", "T", .HGB, "r"⟩ [cexFoundArt] (.ok "text")
        (.error (.mk "bad json")) =
      .error (.mk ("Failed deep analysis for block 3: " ++
        "Failed to structure deep analysis response: bad json")) := by
  refine ⟨(c5_structuring_amended.1 [⟨"P", "c", "a0"⟩] 5 [] "text" (.mk "bad json")).1,
    ?_, ?_⟩
  · have h := c5_structuring_amended.2.1 cexBlock5 0 (.mk "bad json")
    exact h
  · have h := c5_structuring_amended.2.2 3 ⟨"§ 105", "T", .HGB, "r"⟩ [cexFoundArt]
      "text" (.mk "bad json") (by decide)
    exact h

/-- Counterexample for C5 as stated: on a structuring failure the document
review does not return any (safe-default) review — `reviewBlock` returns an
error, so the affected block does not "fall back and continue". -/
theorem c5_structuring_counterexample :
    reviewBlock true cexBlock5 0 (.error (.mk "schema validation failed")) =
      .error (.mk "Failed to review block 0: schema validation failed") ∧
    ¬ ∃ rv, reviewBlock true cexBlock5 0 (.error (.mk "schema validation failed")) =
      .ok rv := by
  refine ⟨rfl, ?_⟩
  rintro ⟨rv, hrv⟩
  rw [show reviewBlock true cexBlock5 0 (.error (.mk "schema validation failed")) =
    .error (.mk "Failed to review block 0: schema validation failed") from rfl] at hrv
  exact absurd hrv (by simp)

/-! ### C8: no hallucination-risk call in the review step -/

/-- A small concrete block for the C8 evidence. -/
def cexBlock8 : ContractBlock := ⟨"Section 2", "hello", 1, "p1-1"⟩

/-- C8 evidence: the body of `reviewBlock` awaits no hallucination-risk
(antihal) service call — its only external call is the single
`generateObject` inference call — and the review it produces carries exactly
the fields `blockIndex`, `severity`, `start`, `stop` (`end`), `comment`,
with no risk metrics, as evaluated at a concrete block.  This contradicts the
claim (and the repository's own integration documentation), which describe a
best-effort antihal call with a 30-second timeout inside the review step. -/
theorem c8_no_antihal_call_evidence :
    ExternalService.antihalEstimateCall ∉ reviewBlockExternalCalls ∧
    reviewBlockExternalCalls = [ExternalService.generateObjectCall] ∧
    reviewBlock true cexBlock8 0 (.ok ⟨.safe, 0, 5, "ok"⟩) = .ok ⟨0, .safe, 0, 5, "ok"⟩ := by
  refine ⟨by decide, rfl, rfl⟩

/-! ### C9: both legal codes disabled -/

/-- The error message surfaced when no legal code is enabled (the
`loadLegalCodes` catch wraps the inner configuration throw). -/
def noLegalCodesError : String :=
  "Failed to load legal codes: No legal codes are enabled. Please enable at least one of BGB or HGB."

theorem loadLegalCodes_bothDisabled (b h : Option (List LegalArticle)) :
    loadLegalCodes false false b h = .error (.mk noLegalCodesError) := rfl

theorem chunks_contract_cons (b : ComplianceBlock) (bs : List ComplianceBlock) :
    chunks (b :: bs) CONTRACT_BLOCKS_PER_BATCH =
      (b :: bs.take 4) :: chunksGo 5 bs.length (bs.drop 4) := rfl

theorem chunks_phase1_cons (y : List ComplianceBlock × Nat)
    (ys : List (List ComplianceBlock × Nat)) :
    chunks (y :: ys) MAX_PARALLEL_PHASE1 =
      (y :: ys.take 49) :: chunksGo 50 ys.length (ys.drop 49) := rfl

theorem mapIdx_pair_cons (x : List ComplianceBlock) (xs : List (List ComplianceBlock)) :
    (x :: xs).mapIdx (fun batchIndex batch => (batch, batchIndex)) =
      (x, 0) :: xs.mapIdx (fun batchIndex batch => (batch, batchIndex + 1)) := by
  simp [List.mapIdx_cons]

theorem compliancePhase1Loop_bothDisabled (o : ComplianceOracle)
    (hB : o.enableBGB = false) (hH : o.enableHGB = false) :
    ∀ (totalChunks : Nat) (y : List ComplianceBlock × Nat)
      (t : List (List ComplianceBlock × Nat))
      (rest : List (List (List ComplianceBlock × Nat)))
      (chunkIndex : Nat) (acc : List BlockResult),
    compliancePhase1Loop o totalChunks ((y :: t) :: rest) chunkIndex acc =
      ((y :: t).map (fun p => WfEvent.stepStart ("phase1-batch-" ++ toString p.2)),
        .error (.mk noLegalCodesError)) := by
  intro totalChunks y t rest chunkIndex acc
  have hstep : phase1BatchStep o y.1 y.2 = .error (.mk noLegalCodesError) := by
    rw [phase1BatchStep, hB, hH, loadLegalCodes_bothDisabled]
  simp [compliancePhase1Loop, hstep, collectResults]

/-- C9 (amended): when both `BGB` and `HGB` are disabled and there is at
least one contract block, the configuration error
`No legal codes are enabled ...` does occur and fails the job — but it
arises *inside* the Phase 1 batch steps (each step calls `loadLegalCodes`
first), after the first wave's batch steps have been dispatched, not at
stage construction: the trace contains the start of `phase1-batch-0`, and
the job's last write is the failure record with that message. -/
theorem c9_disabled_codes_amended (o : ComplianceOracle) (blocks : List ComplianceBlock)
    (hB : o.enableBGB = false) (hH : o.enableHGB = false) (hne : blocks ≠ []) :
    (complianceRun o blocks).2 = .failure noLegalCodesError ∧
    WfEvent.stepStart "phase1-batch-0" ∈ (complianceRun o blocks).1 ∧
    (complianceRun o blocks).1.getLast? = some (failureWrite noLegalCodesError) := by
  obtain ⟨b, bs, rfl⟩ : ∃ b bs, blocks = b :: bs := by
    match blocks, hne with
    | b :: bs, _ => exact ⟨b, bs, rfl⟩
  have hbody : complianceRunBody o (b :: bs) =
      (complianceStartWrite ::
       compliancePhase1Write ::
       ((b :: bs.take 4, 0) ::
         ((chunksGo 5 bs.length (bs.drop 4)).mapIdx
           (fun batchIndex batch => (batch, batchIndex + 1))).take 49).map
         (fun p => WfEvent.stepStart ("phase1-batch-" ++ toString p.2)),
       .error (.mk noLegalCodesError)) := by
    rw [complianceRunBody, chunks_contract_cons, mapIdx_pair_cons, chunks_phase1_cons,
      compliancePhase1Loop_bothDisabled o hB hH]
  have hrun : complianceRun o (b :: bs) =
      ((complianceStartWrite ::
        compliancePhase1Write ::
        ((b :: bs.take 4, 0) ::
          ((chunksGo 5 bs.length (bs.drop 4)).mapIdx
            (fun batchIndex batch => (batch, batchIndex + 1))).take 49).map
          (fun p => WfEvent.stepStart ("phase1-batch-" ++ toString p.2))) ++
        [failureWrite noLegalCodesError],
       .failure noLegalCodesError) := by
    rw [complianceRun, hbody]
    rfl
  refine ⟨by rw [hrun], ?_, by rw [hrun]; exact List.getLast?_concat _⟩
  rw [hrun]
  refine List.mem_append_left _ ?_
  refine List.mem_cons_of_mem _ (List.mem_cons_of_mem _ ?_)
  have hhead : WfEvent.stepStart
      ("phase1-batch-" ++ toString ((b :: bs.take 4, 0) : List ComplianceBlock × Nat).2) =
      WfEvent.stepStart "phase1-batch-0" := by
    show WfEvent.stepStart ("phase1-batch-" ++ toString (0 : Nat)) = _
    rw [show toString (0 : Nat) = "0" from rfl]
    exact rfl
  rw [List.map_cons, hhead]
  exact List.mem_cons_self _ _

/-- A concrete compliance oracle with both legal codes disabled. -/
def cexC9Oracle : ComplianceOracle :=
  ⟨true, false, false, none, none,
   fun _ => .ok "analysis text", fun _ => .ok ⟨[]⟩,
   fun _ => .ok "analysis text", fun _ => .ok ⟨.safe, "", ""⟩⟩

/-- Counterexample for C9 as stated: with both codes disabled and one
contract block, a Phase 1 batch step *is* dispatched (`phase1-batch-0`
starts) before the configuration error fails the job — the failure does not
occur at stage construction prior to dispatching batch steps. -/
theorem c9_disabled_codes_counterexample :
    WfEvent.stepStart "phase1-batch-0" ∈
      (complianceRun cexC9Oracle [⟨"P", "content", "a0"⟩]).1 ∧
    (complianceRun cexC9Oracle [⟨"P", "content", "a0"⟩]).2 =
      .failure noLegalCodesError := by
  exact ⟨by decide, by decide⟩

/-- Witness for C9 (amended) at the concrete both-disabled oracle. -/
theorem c9_disabled_codes_witness :
    (complianceRun cexC9Oracle [⟨"P", "contract text", "a1"⟩]).2 =
      .failure noLegalCodesError ∧
    (complianceRun cexC9Oracle [⟨"P", "contract text", "a1"⟩]).1.getLast? =
      some (failureWrite noLegalCodesError) := by
  have h := c9_disabled_codes_amended cexC9Oracle [⟨"P", "contract text", "a1"⟩]
    rfl rfl (by simp)
  exact ⟨h.1, h.2.2⟩

/-! ### C7: order-independence of wave aggregation in the Parse stage -/

instance : IsTotal PageResult (fun a b => a.pageNumber ≤ b.pageNumber) :=
  ⟨fun _ _ => Nat.le_total _ _⟩

instance : IsTrans PageResult (fun a b => a.pageNumber ≤ b.pageNumber) :=
  ⟨fun _ _ _ => Nat.le_trans⟩

instance : IsAntisymm PageResult (fun a b => a.pageNumber < b.pageNumber) :=
  ⟨fun _ _ h1 h2 => absurd (Nat.lt_trans h1 h2) (Nat.lt_irrefl _)⟩

theorem sortPageResults_perm (l : List PageResult) : (sortPageResults l).Perm l :=
  List.perm_insertionSort _ l

theorem sortPageResults_sorted (l : List PageResult) :
    List.Sorted (fun a b => a.pageNumber ≤ b.pageNumber) (sortPageResults l) :=
  List.sorted_insertionSort _ l

theorem sorted_strict_of_nodup_keys {l : List PageResult}
    (hs : List.Sorted (fun a b => a.pageNumber ≤ b.pageNumber) l)
    (hn : (l.map PageResult.pageNumber).Nodup) :
    List.Sorted (fun a b => a.pageNumber < b.pageNumber) l := by
  have hne : l.Pairwise (fun a b => a.pageNumber ≠ b.pageNumber) :=
    List.pairwise_map.mp hn
  exact (hs.and hne).imp (fun h => Nat.lt_of_le_of_ne h.1 h.2)

/-- Two permutations of the same wave, both sorted by page number, are equal
when the page numbers are distinct. -/
theorem sortPageResults_unique {l1 l2 : List PageResult} (hp : l1.Perm l2)
    (hn : (l2.map PageResult.pageNumber).Nodup) :
    sortPageResults l1 = sortPageResults l2 := by
  have hn1 : (l1.map PageResult.pageNumber).Nodup :=
    ((hp.map PageResult.pageNumber).nodup_iff).mpr hn
  have hns1 : ((sortPageResults l1).map PageResult.pageNumber).Nodup :=
    (((sortPageResults_perm l1).map PageResult.pageNumber).nodup_iff).mpr hn1
  have hns2 : ((sortPageResults l2).map PageResult.pageNumber).Nodup :=
    (((sortPageResults_perm l2).map PageResult.pageNumber).nodup_iff).mpr hn
  have hperm : (sortPageResults l1).Perm (sortPageResults l2) :=
    ((sortPageResults_perm l1).trans hp).trans (sortPageResults_perm l2).symm
  exact List.eq_of_perm_of_sorted hperm
    (sorted_strict_of_nodup_keys (sortPageResults_sorted l1) hns1)
    (sorted_strict_of_nodup_keys (sortPageResults_sorted l2) hns2)

theorem sorted_const_le {k : Nat} : ∀ (l : List Nat), (∀ x ∈ l, x = k) →
    List.Sorted (· ≤ ·) l := by
  intro l
  induction l with
  | nil => intro _; exact List.sorted_nil
  | cons x t ih =>
    intro h
    refine List.Pairwise.cons ?_ (ih fun y hy => h y (List.mem_cons_of_mem _ hy))
    intro y hy
    rw [h x (List.mem_cons_self _ _), h y (List.mem_cons_of_mem _ hy)]

/-- The page numbers of a sorted-by-page wave's concatenated blocks are
ascending, provided each result's blocks carry its page number. -/
theorem bind_blocks_sorted : ∀ (ls : List PageResult),
    ls.Pairwise (fun a b => a.pageNumber ≤ b.pageNumber) →
    (∀ r ∈ ls, ∀ b ∈ r.blocks, b.pageNumber = r.pageNumber) →
    List.Sorted (· ≤ ·) ((ls.bind PageResult.blocks).map ContractBlock.pageNumber) := by
  intro ls
  induction ls with
  | nil => intro _ _; exact List.sorted_nil
  | cons r t ih =>
    intro hpw htag
    simp only [List.cons_bind, List.map_append]
    rw [List.Sorted, List.pairwise_append]
    refine ⟨?_, ?_, ?_⟩
    · apply sorted_const_le
      intro x hx
      simp only [List.mem_map] at hx
      obtain ⟨b, hb, rfl⟩ := hx
      exact htag r (List.mem_cons_self _ _) b hb
    · exact ih (List.Pairwise.sublist (List.sublist_cons_self r t) hpw)
        (fun r' hr' => htag r' (List.mem_cons_of_mem _ hr'))
    · intro x hx y hy
      simp only [List.mem_map] at hx
      obtain ⟨b, hb, rfl⟩ := hx
      rw [htag r (List.mem_cons_self _ _) b hb]
      simp only [List.mem_map, List.mem_bind] at hy
      obtain ⟨b', ⟨r', hr', hb'⟩, rfl⟩ := hy
      rw [htag r' (List.mem_cons_of_mem _ hr') b' hb']
      exact (List.pairwise_cons.mp hpw).1 r' hr'

/-- Filtering the concatenated blocks by one wave member's page number
recovers exactly that member's blocks, in their extraction order. -/
theorem bind_blocks_filter : ∀ (ls : List PageResult) (r : PageResult),
    (ls.map PageResult.pageNumber).Nodup →
    (∀ r' ∈ ls, ∀ b ∈ r'.blocks, b.pageNumber = r'.pageNumber) →
    r ∈ ls →
    (ls.bind PageResult.blocks).filter (fun b => b.pageNumber = r.pageNumber) =
      r.blocks := by
  intro ls
  induction ls with
  | nil => intro r _ _ hr; simp at hr
  | cons r0 t ih =>
    intro r hnd htag hr
    simp only [List.cons_bind, List.filter_append]
    simp only [List.map_cons, List.nodup_cons] at hnd
    rcases List.mem_cons.mp hr with rfl | hrt
    · have h1 : r.blocks.filter (fun b => b.pageNumber = r.pageNumber) = r.blocks := by
        apply List.filter_eq_self.mpr
        intro b hb
        simp [htag r (List.mem_cons_self _ _) b hb]
      have h2 : (t.bind PageResult.blocks).filter
          (fun b => b.pageNumber = r.pageNumber) = [] := by
        apply List.filter_eq_nil.mpr
        intro b hb
        simp only [List.mem_bind] at hb
        obtain ⟨r', hr', hb'⟩ := hb
        simp only [htag r' (List.mem_cons_of_mem _ hr') b hb', decide_eq_true_eq]
        intro hcon
        exact hnd.1 (hcon ▸ List.mem_map_of_mem PageResult.pageNumber hr')
      rw [h1, h2, List.append_nil]
    · have h1 : r0.blocks.filter (fun b => b.pageNumber = r.pageNumber) = [] := by
        apply List.filter_eq_nil.mpr
        intro b hb
        simp only [htag r0 (List.mem_cons_self _ _) b hb, decide_eq_true_eq]
        intro hcon
        exact hnd.1 (hcon ▸ List.mem_map_of_mem PageResult.pageNumber hrt)
      rw [h1, List.nil_append]
      exact ih r hnd.2 (fun r' hr' => htag r' (List.mem_cons_of_mem _ hr')) hrt

/-- C7: for every completion order of a Parse wave's parallel page tasks
(modelled as a permutation of the wave's page results), the aggregated block
list is the same; its blocks appear in ascending page-number order, and the
blocks of each page appear exactly as that page produced them (extraction
index order) — because the wave's results are sorted by page number before
concatenation (the pages of a wave are distinct). -/
theorem c7_wave_order (completion wave : List PageResult)
    (hperm : completion.Perm wave)
    (hnodup : (wave.map PageResult.pageNumber).Nodup)
    (htag : ∀ r ∈ wave, ∀ b ∈ r.blocks, b.pageNumber = r.pageNumber) :
    wavePageBlocks completion = wavePageBlocks wave ∧
    List.Sorted (· ≤ ·) ((wavePageBlocks wave).map ContractBlock.pageNumber) ∧
    ∀ r ∈ wave,
      (wavePageBlocks wave).filter (fun b => b.pageNumber = r.pageNumber) = r.blocks := by
  have hsortedPerm : (sortPageResults wave).Perm wave := sortPageResults_perm wave
  have hndS : ((sortPageResults wave).map PageResult.pageNumber).Nodup :=
    ((hsortedPerm.map PageResult.pageNumber).nodup_iff).mpr hnodup
  have htagS : ∀ r ∈ sortPageResults wave, ∀ b ∈ r.blocks, b.pageNumber = r.pageNumber :=
    fun r hr => htag r (hsortedPerm.mem_iff.mp hr)
  refine ⟨?_, ?_, ?_⟩
  · unfold wavePageBlocks
    rw [sortPageResults_unique hperm hnodup]
  · exact bind_blocks_sorted (sortPageResults wave) (sortPageResults_sorted wave) htagS
  · intro r hr
    exact bind_blocks_filter (sortPageResults wave) r hndS htagS
      (hsortedPerm.mem_iff.mpr hr)

/-- Concrete wave for the C7 witness: two pages completing out of order. -/
def cexPage1 : PageResult :=
  ⟨1, [⟨"S1", "one", 1, "p1-0"⟩, ⟨"S2", "two", 1, "p1-1"⟩]⟩

/-- Second page of the C7 witness wave. -/
def cexPage2 : PageResult := ⟨2, [⟨"S3", "three", 2, "p2-0"⟩]⟩

/-- Witness for C7 at a concrete wave: the reversed completion order yields
the same aggregate, the aggregate's page numbers ascend, and page 1's blocks
come back in extraction order. -/
theorem c7_wave_order_witness :
    wavePageBlocks [cexPage2, cexPage1] = wavePageBlocks [cexPage1, cexPage2] ∧
    List.Sorted (· ≤ ·)
      ((wavePageBlocks [cexPage1, cexPage2]).map ContractBlock.pageNumber) ∧
    (wavePageBlocks [cexPage1, cexPage2]).filter
      (fun b => b.pageNumber = cexPage1.pageNumber) = cexPage1.blocks := by
  have h := c7_wave_order [cexPage2, cexPage1] [cexPage1, cexPage2]
    (by decide) (by decide) (by decide)
  exact ⟨h.1, h.2.1, h.2.2 cexPage1 (by decide)⟩

/-! ### C6: the outermost failure guard -/

theorem getLast?_cons_some {x a : α} {l : List α} (h : l.getLast? = some a) :
    (x :: l).getLast? = some a := by
  match l, h with
  | y :: t, h => rw [List.getLast?_cons_cons]; exact h

theorem getLast?_append_some {l1 l2 : List α} {a : α} (h : l2.getLast? = some a) :
    (l1 ++ l2).getLast? = some a := by
  induction l1 with
  | nil => exact h
  | cons x t ih => exact getLast?_cons_some ih

theorem statusAfter_concat (l : List WfEvent) (u : JobUpdate) (st : JobStatus)
    (h : u.status = some st) : statusAfter (l ++ [.write u]) = st := by
  simp [statusAfter, List.foldl_append, h]

theorem pdfTail_ok_shape {o : PdfOracle} {tp : Nat} {bl : List ContractBlock}
    {rv : List ContractBlockReview} {evs : List WfEvent} {r : PdfResults}
    (h : pdfSummarizeAndFinalize o tp bl rv = (evs, .ok r)) :
    ∃ pre, evs = pre ++ [pdfFinalizeWrite] := by
  rw [pdfSummarizeAndFinalize] at h
  split at h
  · injection h with h1 h2
    exact ⟨[], h1.symm⟩
  · split at h
    next heq =>
      injection h with h1 h2
      exact absurd h2 (by simp)
    next s heq =>
      injection h with h1 h2
      exact ⟨[pdfSummarizingWrite], h1.symm⟩

theorem pdfRunBody_ok_shape {o : PdfOracle} {n : Nat} {evs : List WfEvent}
    {r : PdfResults} (h : pdfRunBody o n = (evs, .ok r)) :
    ∃ pre, evs = pre ++ [pdfFinalizeWrite] := by
  rw [pdfRunBody] at h
  split at h
  · injection h with h1 h2
    exact absurd h2 (by simp)
  next allBlocks heq =>
    split at h
    · have hsnd := congrArg Prod.snd h
      have hfst := congrArg Prod.fst h
      simp only at hsnd hfst
      obtain ⟨pre, hpre⟩ := pdfTail_ok_shape
        (Prod.ext rfl hsnd :
          pdfSummarizeAndFinalize o n allBlocks [] =
            ((pdfSummarizeAndFinalize o n allBlocks []).1, .ok r))
      refine ⟨pdfStartWrite :: (pdfParseLoop o (chunks (List.range' 1 n) 5).length
        (chunks (List.range' 1 n) 5) 0 []).1 ++ pdfReviewingWrite :: pre, ?_⟩
      rw [← hfst, hpre]
      simp
    · simp only [] at h
      split at h
      · injection h with h1 h2
        exact absurd h2 (by simp)
      next allReviews heq2 =>
        have hsnd := congrArg Prod.snd h
        have hfst := congrArg Prod.fst h
        simp only at hsnd hfst
        obtain ⟨pre, hpre⟩ := pdfTail_ok_shape
          (Prod.ext rfl hsnd :
            pdfSummarizeAndFinalize o n allBlocks allReviews =
              ((pdfSummarizeAndFinalize o n allBlocks allReviews).1, .ok r))
        refine ⟨pdfStartWrite :: (pdfParseLoop o (chunks (List.range' 1 n) 5).length
          (chunks (List.range' 1 n) 5) 0 []).1 ++ pdfReviewingWrite ::
          ((pdfReviewLoop o (chunks allBlocks 30).length (chunks allBlocks 30) 0 []).1
            ++ pre), ?_⟩
        rw [← hfst, hpre]
        simp

theorem exists_concat_of_getLast? : ∀ (l : List α) (a : α),
    l.getLast? = some a → ∃ pre, l = pre ++ [a]
  | [], a, h => by simp at h
  | [x], a, h => by
    simp only [List.getLast?_singleton, Option.some.injEq] at h
    exact ⟨[], by simp [h]⟩
  | x :: y :: t, a, h => by
    rw [List.getLast?_cons_cons] at h
    obtain ⟨pre, hp⟩ := exists_concat_of_getLast? (y :: t) a h
    exact ⟨x :: pre, by rw [hp]; rfl⟩

theorem complianceRunBody_ok_shape {o : ComplianceOracle} {cb : List ComplianceBlock}
    {evs : List WfEvent} {r : ComplianceResults}
    (h : complianceRunBody o cb = (evs, .ok r)) :
    ∃ pre, evs = pre ++ [complianceFinalizeWrite] := by
  rw [complianceRunBody] at h
  split at h
  · injection h with h1 h2
    exact absurd h2 (by simp)
  next phase1Results heq =>
    by_cases hemp :
        (List.filter (fun r => r.needsDeepReview) phase1Results).isEmpty = true
    · rw [if_pos hemp] at h
      have hfst := congrArg Prod.fst h
      simp only at hfst
      apply exists_concat_of_getLast?
      rw [← hfst]
      refine getLast?_append_some ?_
      rfl
    · rw [if_neg hemp] at h
      simp only [] at h
      split at h
      · injection h with h1 h2
        exact absurd h2 (by simp)
      next phase2Results heq2 =>
        have hfst := congrArg Prod.fst h
        simp only at hfst
        apply exists_concat_of_getLast?
        rw [← hfst]
        refine getLast?_append_some ?_
        rfl

theorem pdfRun_cases (po : PdfOracle) (n : Nat) :
    (∃ r evs, pdfRunBody po n = (evs, .ok r) ∧ pdfRun po n = (evs, .success r)) ∨
    (∃ e evs, pdfRunBody po n = (evs, .error e) ∧
      pdfRun po n = (evs ++ [failureWrite (jsErrorMessage e)],
        .failure (jsErrorMessage e))) := by
  rcases h : pdfRunBody po n with ⟨evs, res⟩
  cases res with
  | ok r =>
    left
    exact ⟨r, evs, rfl, by rw [pdfRun, h]⟩
  | error e =>
    right
    exact ⟨e, evs, rfl, by rw [pdfRun, h]⟩

theorem complianceRun_cases (co : ComplianceOracle) (cb : List ComplianceBlock) :
    (∃ r evs, complianceRunBody co cb = (evs, .ok r) ∧
      complianceRun co cb = (evs, .success r)) ∨
    (∃ e evs, complianceRunBody co cb = (evs, .error e) ∧
      complianceRun co cb = (evs ++ [failureWrite (jsErrorMessage e)],
        .failure (jsErrorMessage e))) := by
  rcases h : complianceRunBody co cb with ⟨evs, res⟩
  cases res with
  | ok r =>
    left
    exact ⟨r, evs, rfl, by rw [complianceRun, h]⟩
  | error e =>
    right
    exact ⟨e, evs, rfl, by rw [complianceRun, h]⟩

/-- C6: in both pipelines, whenever any stage of the body throws, the
outermost guard makes the *last* job write the failure record — `status =
failed`, `currentStage = "error"`, `errorMessage` populated with the thrown
message — and the run returns the failure result normally (`.failure msg` is
a value, not an exception); on success the last write is the finalize write
(`status = completed`, `progress = 100`).  In particular the recorded job
status after any run is terminal: `completed` or `failed`. -/
theorem c6_failure_guard (po : PdfOracle) (n : Nat)
    (co : ComplianceOracle) (cb : List ComplianceBlock) :
    (∀ msg, (pdfRun po n).2 = .failure msg →
      (pdfRun po n).1.getLast? = some (failureWrite msg) ∧
      statusAfter (pdfRun po n).1 = .failed) ∧
    (∀ r, (pdfRun po n).2 = .success r →
      (pdfRun po n).1.getLast? = some pdfFinalizeWrite ∧
      statusAfter (pdfRun po n).1 = .completed) ∧
    (statusAfter (pdfRun po n).1 = .completed ∨ statusAfter (pdfRun po n).1 = .failed) ∧
    (∀ msg, (complianceRun co cb).2 = .failure msg →
      (complianceRun co cb).1.getLast? = some (failureWrite msg) ∧
      statusAfter (complianceRun co cb).1 = .failed) ∧
    (∀ r, (complianceRun co cb).2 = .success r →
      (complianceRun co cb).1.getLast? = some complianceFinalizeWrite ∧
      statusAfter (complianceRun co cb).1 = .completed) ∧
    (statusAfter (complianceRun co cb).1 = .completed ∨
      statusAfter (complianceRun co cb).1 = .failed) := by
  have hpdf := pdfRun_cases po n
  have hcomp := complianceRun_cases co cb
  have hpdfFail : ∀ msg, (pdfRun po n).2 = .failure msg →
      (pdfRun po n).1.getLast? = some (failureWrite msg) ∧
      statusAfter (pdfRun po n).1 = .failed := by
    intro msg hmsg
    rcases hpdf with ⟨r, evs, _, hrun⟩ | ⟨e, evs, _, hrun⟩
    · rw [hrun] at hmsg
      exact absurd hmsg (by simp)
    · rw [hrun] at hmsg
      simp only at hmsg
      injection hmsg with hmsg
      rw [hrun]
      subst hmsg
      exact ⟨getLast?_append_some rfl, statusAfter_concat _ _ _ rfl⟩
  have hpdfOk : ∀ r, (pdfRun po n).2 = .success r →
      (pdfRun po n).1.getLast? = some pdfFinalizeWrite ∧
      statusAfter (pdfRun po n).1 = .completed := by
    intro r hmsg
    rcases hpdf with ⟨r', evs, hbody, hrun⟩ | ⟨e, evs, _, hrun⟩
    · rw [hrun] at hmsg
      simp only at hmsg
      injection hmsg with hmsg
      subst hmsg
      obtain ⟨pre, hpre⟩ := pdfRunBody_ok_shape hbody
      rw [hrun]
      simp only [hpre]
      exact ⟨getLast?_append_some rfl, statusAfter_concat _ _ _ rfl⟩
    · rw [hrun] at hmsg
      exact absurd hmsg (by simp)
  have hcompFail : ∀ msg, (complianceRun co cb).2 = .failure msg →
      (complianceRun co cb).1.getLast? = some (failureWrite msg) ∧
      statusAfter (complianceRun co cb).1 = .failed := by
    intro msg hmsg
    rcases hcomp with ⟨r, evs, _, hrun⟩ | ⟨e, evs, _, hrun⟩
    · rw [hrun] at hmsg
      exact absurd hmsg (by simp)
    · rw [hrun] at hmsg
      simp only at hmsg
      injection hmsg with hmsg
      rw [hrun]
      subst hmsg
      exact ⟨getLast?_append_some rfl, statusAfter_concat _ _ _ rfl⟩
  have hcompOk : ∀ r, (complianceRun co cb).2 = .success r →
      (complianceRun co cb).1.getLast? = some complianceFinalizeWrite ∧
      statusAfter (complianceRun co cb).1 = .completed := by
    intro r hmsg
    rcases hcomp with ⟨r', evs, hbody, hrun⟩ | ⟨e, evs, _, hrun⟩
    · rw [hrun] at hmsg
      simp only at hmsg
      injection hmsg with hmsg
      subst hmsg
      obtain ⟨pre, hpre⟩ := complianceRunBody_ok_shape hbody
      rw [hrun]
      simp only [hpre]
      exact ⟨getLast?_append_some rfl, statusAfter_concat _ _ _ rfl⟩
    · rw [hrun] at hmsg
      exact absurd hmsg (by simp)
  refine ⟨hpdfFail, hpdfOk, ?_, hcompFail, hcompOk, ?_⟩
  · cases hout : (pdfRun po n).2 with
    | success r => exact Or.inl (hpdfOk r hout).2
    | failure msg => exact Or.inr (hpdfFail msg hout).2
  · cases hout : (complianceRun co cb).2 with
    | success r => exact Or.inl (hcompOk r hout).2
    | failure msg => exact Or.inr (hcompFail msg hout).2

/-- A document-run oracle whose API key is missing (every parse step throws
`OPENROUTER_API_KEY not configured`). -/
def cexPdfOracleFail : PdfOracle :=
  ⟨false, .ok (), fun _ => .ok [], fun _ _ => .ok ⟨.safe, 0, 0, ""⟩, fun _ _ => .ok "s"⟩

/-- A compliance-run oracle for the C6 witness (both corpora disabled, so the
first Phase 1 step throws the configuration error). -/
def cexC6CompOracle : ComplianceOracle :=
  ⟨true, false, false, none, none,
   fun _ => .ok "t", fun _ => .ok ⟨[]⟩, fun _ => .ok "t", fun _ => .ok ⟨.safe, "", ""⟩⟩

/-- Witness for C6 at concrete failing runs of both pipelines. -/
theorem c6_failure_guard_witness :
    (pdfRun cexPdfOracleFail 1).1.getLast? =
      some (failureWrite "OPENROUTER_API_KEY not configured") ∧
    statusAfter (pdfRun cexPdfOracleFail 1).1 = .failed ∧
    (complianceRun cexC6CompOracle [⟨"P", "c", "a0"⟩]).1.getLast? =
      some (failureWrite noLegalCodesError) ∧
    statusAfter (complianceRun cexC6CompOracle [⟨"P", "c", "a0"⟩]).1 = .failed := by
  have h := c6_failure_guard cexPdfOracleFail 1 cexC6CompOracle [⟨"P", "c", "a0"⟩]
  refine ⟨(h.1 "OPENROUTER_API_KEY not configured" ?_).1,
    (h.1 "OPENROUTER_API_KEY not configured" ?_).2,
    (h.2.2.2.1 noLegalCodesError ?_).1, (h.2.2.2.1 noLegalCodesError ?_).2⟩
  · decide
  · decide
  · decide
  · decide

/-! ### C1: monotone progress -/

theorem jsRound_le {c num den : Nat} (h : num ≤ c * den) (hd : 0 < den) :
    jsRound num den ≤ c := by
  have h2d : 0 < 2 * den := by omega
  have hlt : jsRound num den < c + 1 := by
    rw [jsRound, Nat.div_lt_iff_lt_mul h2d]
    obtain ⟨X, hX⟩ : ∃ X, c * den = X := ⟨_, rfl⟩
    have hmul : (c + 1) * (2 * den) = 2 * (c * den) + 2 * den := by ring
    rw [hmul, hX]
    rw [hX] at h
    omega
  omega

theorem jsRound_mono {num num' den : Nat} (h : num ≤ num') :
    jsRound num den ≤ jsRound num' den := by
  apply Nat.div_le_div_right
  omega

/-- `round(c * m / m)` is at most `c` (it equals `c` for `m > 0`, and the
division by zero yields `0` for `m = 0`). -/
theorem jsRound_cmul_le (c m : Nat) : jsRound (c * m) m ≤ c := by
  cases m with
  | zero => simp [jsRound]
  | succ k => exact jsRound_le (le_refl _) (Nat.succ_pos k)

/-- A member of `getLast?` is a member of the list. -/
theorem mem_of_getLast?_mem {l : List α} {x : α} (h : x ∈ l.getLast?) : x ∈ l := by
  obtain ⟨hne, rfl⟩ := List.mem_getLast?_eq_getLast h
  exact List.getLast_mem hne

/-- Prepending a lower bound to a non-decreasing list keeps it non-decreasing. -/
theorem chain_le_cons {a : Nat} {l : List Nat} (hl : List.Chain' (· ≤ ·) l)
    (hb : ∀ b ∈ l, a ≤ b) : List.Chain' (· ≤ ·) (a :: l) := by
  rw [List.chain'_cons']
  exact ⟨fun y hy => hb y (List.mem_of_mem_head? hy), hl⟩

/-- Concatenating two non-decreasing lists separated by a threshold `m` is
non-decreasing. -/
theorem chain_le_append {A B : List Nat} (m : Nat)
    (hA : List.Chain' (· ≤ ·) A) (hB : List.Chain' (· ≤ ·) B)
    (hAle : ∀ a ∈ A, a ≤ m) (hBge : ∀ b ∈ B, m ≤ b) :
    List.Chain' (· ≤ ·) (A ++ B) := by
  refine List.Chain'.append hA hB ?_
  intro x hx y hy
  exact le_trans (hAle x (mem_of_getLast?_mem hx)) (hBge y (List.mem_of_mem_head? hy))

/-- `progressWrites` distributes over concatenation. -/
theorem progressWrites_append (l1 l2 : List WfEvent) :
    progressWrites (l1 ++ l2) = progressWrites l1 ++ progressWrites l2 := by
  simp [progressWrites, List.filterMap_append]

/-- A write carrying a progress value contributes it to `progressWrites`. -/
theorem progressWrites_cons_some {u : JobUpdate} {v : Nat} (h : u.progress = some v)
    (l : List WfEvent) : progressWrites (.write u :: l) = v :: progressWrites l := by
  simp [progressWrites, List.filterMap_cons, h]

/-- A write without a progress value contributes nothing to `progressWrites`. -/
theorem progressWrites_cons_none {u : JobUpdate} (h : u.progress = none)
    (l : List WfEvent) : progressWrites (.write u :: l) = progressWrites l := by
  simp [progressWrites, List.filterMap_cons, h]

/-- A step-start event contributes nothing to `progressWrites`. -/
theorem progressWrites_cons_step (s : String) (l : List WfEvent) :
    progressWrites (.stepStart s :: l) = progressWrites l := by
  simp [progressWrites, List.filterMap_cons]

/-- A list of step-start events has no progress writes. -/
theorem progressWrites_steps_nil {evs : List WfEvent}
    (h : ∀ ev ∈ evs, ∃ s, ev = WfEvent.stepStart s) : progressWrites evs = [] := by
  induction evs with
  | nil => rfl
  | cons e t ih =>
    obtain ⟨s, rfl⟩ := h e (by simp)
    rw [progressWrites_cons_step]
    exact ih fun ev hev => h ev (by simp [hev])

/-- Transfer a per-write bound on progress values to the `progressWrites` list. -/
theorem progressWrites_bound {evs : List WfEvent} {P : Nat → Prop}
    (h : ∀ u, WfEvent.write u ∈ evs → ∀ v, u.progress = some v → P v) :
    ∀ v ∈ progressWrites evs, P v := by
  intro v hv
  rw [progressWrites, List.mem_filterMap] at hv
  obtain ⟨ev, hev, hfv⟩ := hv
  match ev, hfv with
  | .write u, hfv => exact h u hev v hfv
  | .stepStart _, hfv => exact absurd hfv (by simp)

/-- Progress facts of the Parse wave loop: the progress writes are
non-decreasing, every write has no status field, and its progress value lies
between `round(50*(i+1)/NB)` (first wave) and `round(50*(i+len)/NB)` (last). -/
theorem pdfParseLoop_progress (o : PdfOracle) (NB : Nat) :
    ∀ (batches : List (List Nat)) (i : Nat) (acc : List ContractBlock),
      List.Chain' (· ≤ ·) (progressWrites (pdfParseLoop o NB batches i acc).1) ∧
      ∀ u, WfEvent.write u ∈ (pdfParseLoop o NB batches i acc).1 →
        u.status = none ∧ ∀ v, u.progress = some v →
          jsRound (50 * (i + 1)) NB ≤ v ∧ v ≤ jsRound (50 * (i + batches.length)) NB := by
  intro batches
  induction batches with
  | nil =>
    intro i acc
    exact ⟨List.chain'_nil, by intro u hu; simp [pdfParseLoop] at hu⟩
  | cons pb rest ih =>
    intro i acc
    cases hcol : collectResults (pb.map (parsePageStep o)) with
    | error e =>
      refine ⟨?_, ?_⟩
      · simp [pdfParseLoop, hcol, progressWrites]
      · intro u hu
        simp [pdfParseLoop, hcol] at hu
    | ok results =>
      have hrec := ih (i + 1) (acc ++ wavePageBlocks results)
      have hmono : jsRound (50 * (i + 1)) NB ≤ jsRound (50 * (i + 2)) NB :=
        jsRound_mono (by omega)
      have hlen : i + 1 + rest.length = i + (rest.length + 1) := by omega
      refine ⟨?_, ?_⟩
      · simp only [pdfParseLoop, hcol]
        rw [progressWrites_cons_some rfl]
        refine chain_le_cons hrec.1 ?_
        refine progressWrites_bound ?_
        intro u hu v hv
        exact le_trans hmono ((hrec.2 u hu).2 v hv).1
      · intro u hu
        simp only [pdfParseLoop, hcol, List.mem_cons] at hu
        rcases hu with heq | hmem
        · injection heq with heq
          subst heq
          refine ⟨rfl, ?_⟩
          intro v hv
          injection hv with hv
          subst hv
          simp only [List.length_cons]
          exact ⟨le_refl _, jsRound_mono (by omega)⟩
        · obtain ⟨hst, hbd⟩ := hrec.2 u hmem
          refine ⟨hst, ?_⟩
          intro v hv
          simp only [List.length_cons]
          rw [← hlen]
          exact ⟨le_trans hmono (hbd v hv).1, (hbd v hv).2⟩

/-- Progress facts of the Review wave loop: non-decreasing progress writes,
no status field, and values between `50 + round(50*(i+1)/NB)` and
`50 + round(50*(i+len)/NB)`. -/
theorem pdfReviewLoop_progress (o : PdfOracle) (NB : Nat) :
    ∀ (batches : List (List ContractBlock)) (i : Nat) (acc : List ContractBlockReview),
      List.Chain' (· ≤ ·) (progressWrites (pdfReviewLoop o NB batches i acc).1) ∧
      ∀ u, WfEvent.write u ∈ (pdfReviewLoop o NB batches i acc).1 →
        u.status = none ∧ ∀ v, u.progress = some v →
          50 + jsRound (50 * (i + 1)) NB ≤ v ∧
            v ≤ 50 + jsRound (50 * (i + batches.length)) NB := by
  intro batches
  induction batches with
  | nil =>
    intro i acc
    exact ⟨List.chain'_nil, by intro u hu; simp [pdfReviewLoop] at hu⟩
  | cons batch rest ih =>
    intro i acc
    cases hcol : pdfReviewWave o batch i with
    | error e =>
      refine ⟨?_, ?_⟩
      · simp [pdfReviewLoop, hcol, progressWrites]
      · intro u hu
        simp [pdfReviewLoop, hcol] at hu
    | ok reviews =>
      have hrec := ih (i + 1) (acc ++ reviews)
      have hmono : jsRound (50 * (i + 1)) NB ≤ jsRound (50 * (i + 1 + 1)) NB :=
        jsRound_mono (by omega)
      have hlen : i + 1 + rest.length = i + (rest.length + 1) := by omega
      refine ⟨?_, ?_⟩
      · simp only [pdfReviewLoop, hcol]
        rw [progressWrites_cons_some rfl]
        refine chain_le_cons hrec.1 ?_
        refine progressWrites_bound ?_
        intro u hu v hv
        have hlow := ((hrec.2 u hu).2 v hv).1
        omega
      · intro u hu
        simp only [pdfReviewLoop, hcol, List.mem_cons] at hu
        rcases hu with heq | hmem
        · injection heq with heq
          subst heq
          refine ⟨rfl, ?_⟩
          intro v hv
          injection hv with hv
          subst hv
          simp only [List.length_cons]
          have := @jsRound_mono (50 * (i + 1)) (50 * (i + (rest.length + 1))) NB
            (by omega)
          omega
        · obtain ⟨hst, hbd⟩ := hrec.2 u hmem
          refine ⟨hst, ?_⟩
          intro v hv
          simp only [List.length_cons]
          rw [← hlen]
          have h1 := (hbd v hv).1
          have h2 := (hbd v hv).2
          omega

/-- Progress facts of the Phase 1 wave loop: non-decreasing progress writes,
no status field, and values between `10 + round(40*(i+1)/NC)` and
`10 + round(40*(i+len)/NC)`. -/
theorem compliancePhase1Loop_progress (o : ComplianceOracle) (NC : Nat) :
    ∀ (chunksL : List (List (List ComplianceBlock × Nat))) (i : Nat)
      (acc : List BlockResult),
      List.Chain' (· ≤ ·) (progressWrites (compliancePhase1Loop o NC chunksL i acc).1) ∧
      ∀ u, WfEvent.write u ∈ (compliancePhase1Loop o NC chunksL i acc).1 →
        u.status = none ∧ ∀ v, u.progress = some v →
          10 + jsRound (40 * (i + 1)) NC ≤ v ∧
            v ≤ 10 + jsRound (40 * (i + chunksL.length)) NC := by
  intro chunksL
  induction chunksL with
  | nil =>
    intro i acc
    exact ⟨List.chain'_nil, by intro u hu; simp [compliancePhase1Loop] at hu⟩
  | cons chunk rest ih =>
    intro i acc
    have hsteps : ∀ ev ∈ chunk.map
        (fun p => WfEvent.stepStart ("phase1-batch-" ++ toString p.2)),
        ∃ s, ev = WfEvent.stepStart s := by
      intro ev hev
      obtain ⟨p, _, rfl⟩ := List.mem_map.mp hev
      exact ⟨_, rfl⟩
    cases hcol : collectResults (chunk.map fun p => phase1BatchStep o p.1 p.2) with
    | error e =>
      refine ⟨?_, ?_⟩
      · simp only [compliancePhase1Loop, hcol]
        rw [progressWrites_steps_nil hsteps]
        exact List.chain'_nil
      · intro u hu
        simp only [compliancePhase1Loop, hcol] at hu
        obtain ⟨s, hse⟩ := hsteps _ hu
        exact WfEvent.noConfusion hse
    | ok results =>
      have hrec := ih (i + 1) (acc ++ results.bind ArticleIdentificationResult.blockResults)
      have hmono : jsRound (40 * (i + 1)) NC ≤ jsRound (40 * (i + 1 + 1)) NC :=
        jsRound_mono (by omega)
      have hlen : i + 1 + rest.length = i + (rest.length + 1) := by omega
      refine ⟨?_, ?_⟩
      · simp only [compliancePhase1Loop, hcol]
        rw [progressWrites_append, progressWrites_steps_nil hsteps, List.nil_append,
          progressWrites_cons_some rfl]
        refine chain_le_cons hrec.1 ?_
        refine progressWrites_bound ?_
        intro u hu v hv
        have hlow := ((hrec.2 u hu).2 v hv).1
        omega
      · intro u hu
        simp only [compliancePhase1Loop, hcol, List.mem_append, List.mem_cons] at hu
        rcases hu with hs | heq | hmem
        · obtain ⟨s, hse⟩ := hsteps _ hs
          exact WfEvent.noConfusion hse
        · injection heq with heq
          subst heq
          refine ⟨rfl, ?_⟩
          intro v hv
          injection hv with hv
          subst hv
          simp only [List.length_cons]
          have := @jsRound_mono (40 * (i + 1)) (40 * (i + (rest.length + 1))) NC
            (by omega)
          omega
        · obtain ⟨hst, hbd⟩ := hrec.2 u hmem
          refine ⟨hst, ?_⟩
          intro v hv
          simp only [List.length_cons]
          rw [← hlen]
          have h1 := (hbd v hv).1
          have h2 := (hbd v hv).2
          omega

/-- Progress facts of the Phase 2 wave loop: non-decreasing progress writes,
no status field, and values between `50 + round(40*(i+1)/NC)` and
`50 + round(40*(i+len)/NC)`. -/
theorem compliancePhase2Loop_progress (o : ComplianceOracle) (NC : Nat) :
    ∀ (chunksL : List (List ReviewTask)) (i : Nat) (acc : List DeepAnalysisResult),
      List.Chain' (· ≤ ·) (progressWrites (compliancePhase2Loop o NC chunksL i acc).1) ∧
      ∀ u, WfEvent.write u ∈ (compliancePhase2Loop o NC chunksL i acc).1 →
        u.status = none ∧ ∀ v, u.progress = some v →
          50 + jsRound (40 * (i + 1)) NC ≤ v ∧
            v ≤ 50 + jsRound (40 * (i + chunksL.length)) NC := by
  intro chunksL
  induction chunksL with
  | nil =>
    intro i acc
    exact ⟨List.chain'_nil, by intro u hu; simp [compliancePhase2Loop] at hu⟩
  | cons chunk rest ih =>
    intro i acc
    have hsteps : ∀ ev ∈ chunk.mapIdx
        (fun idx _ => WfEvent.stepStart
          ("phase2-task-" ++ toString (i * MAX_PARALLEL_PHASE2 + idx))),
        ∃ s, ev = WfEvent.stepStart s := by
      intro ev hev
      rw [List.mem_mapIdx] at hev
      obtain ⟨j, hj, hje⟩ := hev
      exact ⟨_, hje.symm⟩
    cases hcol : collectResults (chunk.mapIdx fun idx task =>
        phase2TaskStep o task (i * MAX_PARALLEL_PHASE2 + idx)) with
    | error e =>
      refine ⟨?_, ?_⟩
      · simp only [compliancePhase2Loop, hcol]
        rw [progressWrites_steps_nil hsteps]
        exact List.chain'_nil
      · intro u hu
        simp only [compliancePhase2Loop, hcol] at hu
        obtain ⟨s, hse⟩ := hsteps _ hu
        exact WfEvent.noConfusion hse
    | ok results =>
      have hrec := ih (i + 1) (acc ++ results.filterMap id)
      have hmono : jsRound (40 * (i + 1)) NC ≤ jsRound (40 * (i + 1 + 1)) NC :=
        jsRound_mono (by omega)
      have hlen : i + 1 + rest.length = i + (rest.length + 1) := by omega
      refine ⟨?_, ?_⟩
      · simp only [compliancePhase2Loop, hcol]
        rw [progressWrites_append, progressWrites_steps_nil hsteps, List.nil_append,
          progressWrites_cons_some rfl]
        refine chain_le_cons hrec.1 ?_
        refine progressWrites_bound ?_
        intro u hu v hv
        have hlow := ((hrec.2 u hu).2 v hv).1
        omega
      · intro u hu
        simp only [compliancePhase2Loop, hcol, List.mem_append, List.mem_cons] at hu
        rcases hu with hs | heq | hmem
        · obtain ⟨s, hse⟩ := hsteps _ hs
          exact WfEvent.noConfusion hse
        · injection heq with heq
          subst heq
          refine ⟨rfl, ?_⟩
          intro v hv
          injection hv with hv
          subst hv
          simp only [List.length_cons]
          have := @jsRound_mono (40 * (i + 1)) (40 * (i + (rest.length + 1))) NC
            (by omega)
          omega
        · obtain ⟨hst, hbd⟩ := hrec.2 u hmem
          refine ⟨hst, ?_⟩
          intro v hv
          simp only [List.length_cons]
          rw [← hlen]
          have h1 := (hbd v hv).1
          have h2 := (hbd v hv).2
          omega

/-- A value below `base + round(c*m/m)` is below `base + c`. -/
theorem le_base_add_of_cmul {v base c m : Nat} (h : v ≤ base + jsRound (c * m) m) :
    v ≤ base + c := by
  have := jsRound_cmul_le c m
  omega

/-- A value below `round(c*m/m)` is below `c`. -/
theorem le_of_cmul_bound {v c m : Nat} (h : v ≤ jsRound (c * m) m) : v ≤ c :=
  le_trans h (jsRound_cmul_le c m)

/-- Progress facts of the summarize-and-finalize tail: its only possible
progress write is the finalize `100`, and any `completed` status write
carries progress `100`. -/
theorem pdfTail_progress (o : PdfOracle) (tp : Nat) (bl : List ContractBlock)
    (rv : List ContractBlockReview) :
    List.Chain' (· ≤ ·) (progressWrites (pdfSummarizeAndFinalize o tp bl rv).1) ∧
    (∀ v ∈ progressWrites (pdfSummarizeAndFinalize o tp bl rv).1, v = 100) ∧
    ∀ u, WfEvent.write u ∈ (pdfSummarizeAndFinalize o tp bl rv).1 →
      u.status = some .completed → u.progress = some 100 := by
  simp only [pdfSummarizeAndFinalize]
  split
  · refine ⟨?_, ?_, ?_⟩
    · show List.Chain' (· ≤ ·) (progressWrites [pdfFinalizeWrite])
      rw [show progressWrites [pdfFinalizeWrite] = [100] from rfl]
      exact List.chain'_singleton 100
    · show ∀ v ∈ progressWrites [pdfFinalizeWrite], v = 100
      decide
    intro u hu _
    replace hu : WfEvent.write u ∈ [pdfFinalizeWrite] := hu
    have h2 := List.mem_singleton.mp hu
    injection h2 with h2
    subst h2
    rfl
  · split
    · refine ⟨?_, ?_, ?_⟩
      · show List.Chain' (· ≤ ·) (progressWrites [pdfSummarizingWrite])
        rw [show progressWrites [pdfSummarizingWrite] = [] from rfl]
        exact List.chain'_nil
      · show ∀ v ∈ progressWrites [pdfSummarizingWrite], v = 100
        decide
      intro u hu h
      replace hu : WfEvent.write u ∈ [pdfSummarizingWrite] := hu
      have h2 := List.mem_singleton.mp hu
      injection h2 with h2
      subst h2
      exact absurd h (by decide)
    · refine ⟨?_, ?_, ?_⟩
      · show List.Chain' (· ≤ ·) (progressWrites [pdfSummarizingWrite, pdfFinalizeWrite])
        rw [show progressWrites [pdfSummarizingWrite, pdfFinalizeWrite] = [100] from rfl]
        exact List.chain'_singleton 100
      · show ∀ v ∈ progressWrites [pdfSummarizingWrite, pdfFinalizeWrite], v = 100
        decide
      intro u hu h
      replace hu : WfEvent.write u ∈ [pdfSummarizingWrite, pdfFinalizeWrite] := hu
      rcases List.mem_cons.mp hu with h1 | h1
      · injection h1 with h1
        subst h1
        exact absurd h (by decide)
      · have h2 := List.mem_singleton.mp h1
        injection h2 with h2
        subst h2
        rfl

/-- Progress facts of the document-run body: the progress writes are
non-decreasing and any `completed` status write carries progress `100`. -/
theorem pdfRunBody_progress (o : PdfOracle) (n : Nat) :
    List.Chain' (· ≤ ·) (progressWrites (pdfRunBody o n).1) ∧
    ∀ u, WfEvent.write u ∈ (pdfRunBody o n).1 →
      u.status = some .completed → u.progress = some 100 := by
  rcases hb : pdfRunBody o n with ⟨evs, res⟩
  rw [pdfRunBody] at hb
  split at hb
  · have hfst := congrArg Prod.fst hb
    simp only at hfst
    subst hfst
    constructor
    · simp only [pdfStartWrite]
      rw [progressWrites_cons_some rfl]
      exact chain_le_cons (pdfParseLoop_progress o _ _ 0 []).1 (fun b _ => Nat.zero_le b)
    · intro u hu
      rcases List.mem_cons.mp hu with heq1 | hmem
      · injection heq1 with heq1
        subst heq1
        intro h
        exact absurd h (by decide)
      · intro h
        have hst := ((pdfParseLoop_progress o _ _ 0 []).2 u hmem).1
        rw [hst] at h
        exact Option.noConfusion h
  next allBlocks heq =>
    split at hb
    · have hfst := congrArg Prod.fst hb
      simp only at hfst
      subst hfst
      constructor
      · rw [progressWrites_append]
        simp only [pdfStartWrite, pdfReviewingWrite]
        rw [progressWrites_cons_some rfl, progressWrites_cons_some rfl]
        refine chain_le_append 50 ?_ ?_ ?_ ?_
        · exact chain_le_cons (pdfParseLoop_progress o _ _ 0 []).1 (fun b _ => Nat.zero_le b)
        · refine chain_le_cons (pdfTail_progress o n allBlocks []).1 ?_
          intro b hb2
          rw [(pdfTail_progress o n allBlocks []).2.1 b hb2]
          omega
        · intro a ha
          rcases List.mem_cons.mp ha with rfl | ha2
          · omega
          · refine @progressWrites_bound _ (fun w => w ≤ 50) ?_ a ha2
            intro u hu v hv
            have h2 := ((pdfParseLoop_progress o _ _ 0 []).2 u hu).2 v hv
            simp only [Nat.zero_add] at h2
            exact le_of_cmul_bound h2.2
        · intro b hb2
          rcases List.mem_cons.mp hb2 with rfl | hb3
          · omega
          · rw [(pdfTail_progress o n allBlocks []).2.1 b hb3]
            omega
      · intro u hu
        rcases List.mem_append.mp hu with hA | hB
        · rcases List.mem_cons.mp hA with heq1 | hmem
          · injection heq1 with heq1
            subst heq1
            intro h
            exact absurd h (by decide)
          · intro h
            have hst := ((pdfParseLoop_progress o _ _ 0 []).2 u hmem).1
            rw [hst] at h
            exact Option.noConfusion h
        · rcases List.mem_cons.mp hB with heq1 | hmem
          · injection heq1 with heq1
            subst heq1
            intro h
            exact absurd h (by decide)
          · exact (pdfTail_progress o n allBlocks []).2.2 u hmem
    · simp only [] at hb
      split at hb
      · have hfst := congrArg Prod.fst hb
        simp only at hfst
        subst hfst
        constructor
        · rw [progressWrites_append]
          simp only [pdfStartWrite, pdfReviewingWrite]
          rw [progressWrites_cons_some rfl, progressWrites_cons_some rfl]
          refine chain_le_append 50 ?_ ?_ ?_ ?_
          · exact chain_le_cons (pdfParseLoop_progress o _ _ 0 []).1
              (fun b _ => Nat.zero_le b)
          · refine chain_le_cons (pdfReviewLoop_progress o _ _ 0 []).1 ?_
            refine progressWrites_bound ?_
            intro u hu v hv
            have h2 := ((pdfReviewLoop_progress o _ _ 0 []).2 u hu).2 v hv
            omega
          · intro a ha
            rcases List.mem_cons.mp ha with rfl | ha2
            · omega
            · refine @progressWrites_bound _ (fun w => w ≤ 50) ?_ a ha2
              intro u hu v hv
              have h2 := ((pdfParseLoop_progress o _ _ 0 []).2 u hu).2 v hv
              simp only [Nat.zero_add] at h2
              exact le_of_cmul_bound h2.2
          · intro b hb2
            rcases List.mem_cons.mp hb2 with rfl | hb3
            · omega
            · refine @progressWrites_bound _ (fun w => 50 ≤ w) ?_ b hb3
              intro u hu v hv
              have h2 := ((pdfReviewLoop_progress o _ _ 0 []).2 u hu).2 v hv
              omega
        · intro u hu
          rcases List.mem_append.mp hu with hA | hB
          · rcases List.mem_cons.mp hA with heq1 | hmem
            · injection heq1 with heq1
              subst heq1
              intro h
              exact absurd h (by decide)
            · intro h
              have hst := ((pdfParseLoop_progress o _ _ 0 []).2 u hmem).1
              rw [hst] at h
              exact Option.noConfusion h
          · rcases List.mem_cons.mp hB with heq1 | hmem
            · injection heq1 with heq1
              subst heq1
              intro h
              exact absurd h (by decide)
            · intro h
              have hst := ((pdfReviewLoop_progress o _ _ 0 []).2 u hmem).1
              rw [hst] at h
              exact Option.noConfusion h
      next allReviews heq2 =>
        have hfst := congrArg Prod.fst hb
        simp only at hfst
        subst hfst
        constructor
        · rw [progressWrites_append, progressWrites_append]
          simp only [pdfStartWrite, pdfReviewingWrite]
          rw [progressWrites_cons_some rfl, progressWrites_cons_some rfl]
          refine chain_le_append 100 ?_ ?_ ?_ ?_
          · refine chain_le_append 50 ?_ ?_ ?_ ?_
            · exact chain_le_cons (pdfParseLoop_progress o _ _ 0 []).1
                (fun b _ => Nat.zero_le b)
            · refine chain_le_cons (pdfReviewLoop_progress o _ _ 0 []).1 ?_
              refine progressWrites_bound ?_
              intro u hu v hv
              have h2 := ((pdfReviewLoop_progress o _ _ 0 []).2 u hu).2 v hv
              omega
            · intro a ha
              rcases List.mem_cons.mp ha with rfl | ha2
              · omega
              · refine @progressWrites_bound _ (fun w => w ≤ 50) ?_ a ha2
                intro u hu v hv
                have h2 := ((pdfParseLoop_progress o _ _ 0 []).2 u hu).2 v hv
                simp only [Nat.zero_add] at h2
                exact le_of_cmul_bound h2.2
            · intro b hb2
              rcases List.mem_cons.mp hb2 with rfl | hb3
              · omega
              · refine @progressWrites_bound _ (fun w => 50 ≤ w) ?_ b hb3
                intro u hu v hv
                have h2 := ((pdfReviewLoop_progress o _ _ 0 []).2 u hu).2 v hv
                omega
          · exact (pdfTail_progress o n allBlocks allReviews).1
          · intro a ha
            rcases List.mem_append.mp ha with ha1 | ha2
            · rcases List.mem_cons.mp ha1 with rfl | ha3
              · omega
              · refine @progressWrites_bound _ (fun w => w ≤ 100) ?_ a ha3
                intro u hu v hv
                have h2 := ((pdfParseLoop_progress o _ _ 0 []).2 u hu).2 v hv
                simp only [Nat.zero_add] at h2
                have := le_of_cmul_bound h2.2
                omega
            · rcases List.mem_cons.mp ha2 with rfl | ha3
              · omega
              · refine @progressWrites_bound _ (fun w => w ≤ 100) ?_ a ha3
                intro u hu v hv
                have h2 := ((pdfReviewLoop_progress o _ _ 0 []).2 u hu).2 v hv
                simp only [Nat.zero_add] at h2
                exact le_base_add_of_cmul h2.2
          · intro b hb2
            rw [(pdfTail_progress o n allBlocks allReviews).2.1 b hb2]
        · intro u hu
          rcases List.mem_append.mp hu with hAB | hT
          · rcases List.mem_append.mp hAB with hA | hB
            · rcases List.mem_cons.mp hA with heq1 | hmem
              · injection heq1 with heq1
                subst heq1
                intro h
                exact absurd h (by decide)
              · intro h
                have hst := ((pdfParseLoop_progress o _ _ 0 []).2 u hmem).1
                rw [hst] at h
                exact Option.noConfusion h
            · rcases List.mem_cons.mp hB with heq1 | hmem
              · injection heq1 with heq1
                subst heq1
                intro h
                exact absurd h (by decide)
              · intro h
                have hst := ((pdfReviewLoop_progress o _ _ 0 []).2 u hmem).1
                rw [hst] at h
                exact Option.noConfusion h
          · exact (pdfTail_progress o n allBlocks allReviews).2.2 u hT

/-- Progress facts of the compliance-run body: the progress writes are
non-decreasing; a `completed` status write carries progress `100`; and a
progress-100 write carries status `completed`. -/
theorem complianceRunBody_progress (o : ComplianceOracle) (cb : List ComplianceBlock) :
    List.Chain' (· ≤ ·) (progressWrites (complianceRunBody o cb).1) ∧
    ∀ u, WfEvent.write u ∈ (complianceRunBody o cb).1 →
      (u.status = some .completed → u.progress = some 100) ∧
      (u.progress = some 100 → u.status = some .completed) := by
  rcases hb : complianceRunBody o cb with ⟨evs, res⟩
  rw [complianceRunBody] at hb
  split at hb
  · have hfst := congrArg Prod.fst hb
    simp only at hfst
    subst hfst
    constructor
    · simp only [complianceStartWrite, compliancePhase1Write]
      rw [progressWrites_cons_some rfl, progressWrites_cons_some rfl]
      refine chain_le_cons ?_ (fun b _ => Nat.zero_le b)
      refine chain_le_cons (compliancePhase1Loop_progress o _ _ 0 []).1 ?_
      refine progressWrites_bound ?_
      intro u hu v hv
      have h2 := ((compliancePhase1Loop_progress o _ _ 0 []).2 u hu).2 v hv
      omega
    · intro u hu
      rcases List.mem_cons.mp hu with heq1 | hu2
      · injection heq1 with heq1
        subst heq1
        exact ⟨fun h => absurd h (by decide), fun h => absurd h (by decide)⟩
      rcases List.mem_cons.mp hu2 with heq1 | hu3
      · injection heq1 with heq1
        subst heq1
        exact ⟨fun h => absurd h (by decide), fun h => absurd h (by decide)⟩
      · have hf := (compliancePhase1Loop_progress o _ _ 0 []).2 u hu3
        constructor
        · intro h
          rw [hf.1] at h
          exact Option.noConfusion h
        · intro h
          have h2 := hf.2 100 h
          simp only [Nat.zero_add] at h2
          exact absurd (le_base_add_of_cmul h2.2) (by omega)
  next phase1Results heq =>
    by_cases hemp :
        (List.filter (fun r => r.needsDeepReview) phase1Results).isEmpty = true
    · rw [if_pos hemp] at hb
      have hfst := congrArg Prod.fst hb
      simp only at hfst
      subst hfst
      constructor
      · rw [progressWrites_append]
        simp only [complianceStartWrite, compliancePhase1Write]
        rw [progressWrites_cons_some rfl, progressWrites_cons_some rfl,
          show progressWrites [compliancePhase2Write, complianceFinalizeWrite] =
            [50, 100] from rfl]
        refine chain_le_append 50 ?_ ?_ ?_ ?_
        · refine chain_le_cons ?_ (fun b _ => Nat.zero_le b)
          refine chain_le_cons (compliancePhase1Loop_progress o _ _ 0 []).1 ?_
          refine progressWrites_bound ?_
          intro u hu v hv
          have h2 := ((compliancePhase1Loop_progress o _ _ 0 []).2 u hu).2 v hv
          omega
        · exact List.chain'_pair.mpr (by omega)
        · intro a ha
          rcases List.mem_cons.mp ha with rfl | ha2
          · omega
          rcases List.mem_cons.mp ha2 with rfl | ha3
          · omega
          · refine @progressWrites_bound _ (fun w => w ≤ 50) ?_ a ha3
            intro u hu v hv
            have h2 := ((compliancePhase1Loop_progress o _ _ 0 []).2 u hu).2 v hv
            simp only [Nat.zero_add] at h2
            exact le_base_add_of_cmul h2.2
        · intro b hb2
          rcases List.mem_cons.mp hb2 with rfl | hb3
          · omega
          · have hb4 := List.mem_singleton.mp hb3
            subst hb4
            omega
      · intro u hu
        rcases List.mem_append.mp hu with hA | hB
        · rcases List.mem_cons.mp hA with heq1 | hu2
          · injection heq1 with heq1
            subst heq1
            exact ⟨fun h => absurd h (by decide), fun h => absurd h (by decide)⟩
          rcases List.mem_cons.mp hu2 with heq1 | hu3
          · injection heq1 with heq1
            subst heq1
            exact ⟨fun h => absurd h (by decide), fun h => absurd h (by decide)⟩
          · have hf := (compliancePhase1Loop_progress o _ _ 0 []).2 u hu3
            constructor
            · intro h
              rw [hf.1] at h
              exact Option.noConfusion h
            · intro h
              have h2 := hf.2 100 h
              simp only [Nat.zero_add] at h2
              exact absurd (le_base_add_of_cmul h2.2) (by omega)
        · rcases List.mem_cons.mp hB with heq1 | hB2
          · injection heq1 with heq1
            subst heq1
            exact ⟨fun h => absurd h (by decide), fun h => absurd h (by decide)⟩
          · have heq2 := List.mem_singleton.mp hB2
            injection heq2 with heq2
            subst heq2
            exact ⟨fun _ => rfl, fun _ => rfl⟩
    · rw [if_neg hemp] at hb
      simp only [] at hb
      split at hb
      · have hfst := congrArg Prod.fst hb
        simp only at hfst
        subst hfst
        constructor
        · rw [progressWrites_append]
          simp only [complianceStartWrite, compliancePhase1Write, compliancePhase2Write]
          rw [progressWrites_cons_some rfl, progressWrites_cons_some rfl,
            progressWrites_cons_some rfl]
          refine chain_le_append 50 ?_ ?_ ?_ ?_
          · refine chain_le_cons ?_ (fun b _ => Nat.zero_le b)
            refine chain_le_cons (compliancePhase1Loop_progress o _ _ 0 []).1 ?_
            refine progressWrites_bound ?_
            intro u hu v hv
            have h2 := ((compliancePhase1Loop_progress o _ _ 0 []).2 u hu).2 v hv
            omega
          · refine chain_le_cons (compliancePhase2Loop_progress o _ _ 0 []).1 ?_
            refine progressWrites_bound ?_
            intro u hu v hv
            have h2 := ((compliancePhase2Loop_progress o _ _ 0 []).2 u hu).2 v hv
            omega
          · intro a ha
            rcases List.mem_cons.mp ha with rfl | ha2
            · omega
            rcases List.mem_cons.mp ha2 with rfl | ha3
            · omega
            · refine @progressWrites_bound _ (fun w => w ≤ 50) ?_ a ha3
              intro u hu v hv
              have h2 := ((compliancePhase1Loop_progress o _ _ 0 []).2 u hu).2 v hv
              simp only [Nat.zero_add] at h2
              exact le_base_add_of_cmul h2.2
          · intro b hb2
            rcases List.mem_cons.mp hb2 with rfl | hb3
            · omega
            · refine @progressWrites_bound _ (fun w => 50 ≤ w) ?_ b hb3
              intro u hu v hv
              have h2 := ((compliancePhase2Loop_progress o _ _ 0 []).2 u hu).2 v hv
              omega
        · intro u hu
          rcases List.mem_append.mp hu with hA | hB
          · rcases List.mem_cons.mp hA with heq1 | hu2
            · injection heq1 with heq1
              subst heq1
              exact ⟨fun h => absurd h (by decide), fun h => absurd h (by decide)⟩
            rcases List.mem_cons.mp hu2 with heq1 | hu3
            · injection heq1 with heq1
              subst heq1
              exact ⟨fun h => absurd h (by decide), fun h => absurd h (by decide)⟩
            · have hf := (compliancePhase1Loop_progress o _ _ 0 []).2 u hu3
              constructor
              · intro h
                rw [hf.1] at h
                exact Option.noConfusion h
              · intro h
                have h2 := hf.2 100 h
                simp only [Nat.zero_add] at h2
                exact absurd (le_base_add_of_cmul h2.2) (by omega)
          · rcases List.mem_cons.mp hB with heq1 | hB2
            · injection heq1 with heq1
              subst heq1
              exact ⟨fun h => absurd h (by decide), fun h => absurd h (by decide)⟩
            · have hf := (compliancePhase2Loop_progress o _ _ 0 []).2 u hB2
              constructor
              · intro h
                rw [hf.1] at h
                exact Option.noConfusion h
              · intro h
                have h2 := hf.2 100 h
                simp only [Nat.zero_add] at h2
                exact absurd (le_base_add_of_cmul h2.2) (by omega)
      next phase2Results heq2 =>
        have hfst := congrArg Prod.fst hb
        simp only at hfst
        subst hfst
        constructor
        · rw [progressWrites_append, progressWrites_append]
          simp only [complianceStartWrite, compliancePhase1Write, compliancePhase2Write]
          rw [progressWrites_cons_some rfl, progressWrites_cons_some rfl,
            progressWrites_cons_some rfl,
            show progressWrites [complianceFinalizeWrite] = [100] from rfl]
          refine chain_le_append 100 ?_ ?_ ?_ ?_
          · refine chain_le_append 50 ?_ ?_ ?_ ?_
            · refine chain_le_cons ?_ (fun b _ => Nat.zero_le b)
              refine chain_le_cons (compliancePhase1Loop_progress o _ _ 0 []).1 ?_
              refine progressWrites_bound ?_
              intro u hu v hv
              have h2 := ((compliancePhase1Loop_progress o _ _ 0 []).2 u hu).2 v hv
              omega
            · refine chain_le_cons (compliancePhase2Loop_progress o _ _ 0 []).1 ?_
              refine progressWrites_bound ?_
              intro u hu v hv
              have h2 := ((compliancePhase2Loop_progress o _ _ 0 []).2 u hu).2 v hv
              omega
            · intro a ha
              rcases List.mem_cons.mp ha with rfl | ha2
              · omega
              rcases List.mem_cons.mp ha2 with rfl | ha3
              · omega
              · refine @progressWrites_bound _ (fun w => w ≤ 50) ?_ a ha3
                intro u hu v hv
                have h2 := ((compliancePhase1Loop_progress o _ _ 0 []).2 u hu).2 v hv
                simp only [Nat.zero_add] at h2
                exact le_base_add_of_cmul h2.2
            · intro b hb2
              rcases List.mem_cons.mp hb2 with rfl | hb3
              · omega
              · refine @progressWrites_bound _ (fun w => 50 ≤ w) ?_ b hb3
                intro u hu v hv
                have h2 := ((compliancePhase2Loop_progress o _ _ 0 []).2 u hu).2 v hv
                omega
          · exact List.chain'_singleton 100
          · intro a ha
            rcases List.mem_append.mp ha with ha1 | ha2
            · rcases List.mem_cons.mp ha1 with rfl | hb1
              · omega
              rcases List.mem_cons.mp hb1 with rfl | hb2
              · omega
              · refine @progressWrites_bound _ (fun w => w ≤ 100) ?_ a hb2
                intro u hu v hv
                have h2 := ((compliancePhase1Loop_progress o _ _ 0 []).2 u hu).2 v hv
                simp only [Nat.zero_add] at h2
                have := le_base_add_of_cmul h2.2
                omega
            · rcases List.mem_cons.mp ha2 with rfl | hb2
              · omega
              · refine @progressWrites_bound _ (fun w => w ≤ 100) ?_ a hb2
                intro u hu v hv
                have h2 := ((compliancePhase2Loop_progress o _ _ 0 []).2 u hu).2 v hv
                simp only [Nat.zero_add] at h2
                have := le_base_add_of_cmul h2.2
                omega
          · intro b hb2
            have hb3 := List.mem_singleton.mp hb2
            subst hb3
            omega
        · intro u hu
          rcases List.mem_append.mp hu with hAB | hT
          · rcases List.mem_append.mp hAB with hA | hB
            · rcases List.mem_cons.mp hA with heq1 | hu2
              · injection heq1 with heq1
                subst heq1
                exact ⟨fun h => absurd h (by decide), fun h => absurd h (by decide)⟩
              rcases List.mem_cons.mp hu2 with heq1 | hu3
              · injection heq1 with heq1
                subst heq1
                exact ⟨fun h => absurd h (by decide), fun h => absurd h (by decide)⟩
              · have hf := (compliancePhase1Loop_progress o _ _ 0 []).2 u hu3
                constructor
                · intro h
                  rw [hf.1] at h
                  exact Option.noConfusion h
                · intro h
                  have h2 := hf.2 100 h
                  simp only [Nat.zero_add] at h2
                  exact absurd (le_base_add_of_cmul h2.2) (by omega)
            · rcases List.mem_cons.mp hB with heq1 | hB2
              · injection heq1 with heq1
                subst heq1
                exact ⟨fun h => absurd h (by decide), fun h => absurd h (by decide)⟩
              · have hf := (compliancePhase2Loop_progress o _ _ 0 []).2 u hB2
                constructor
                · intro h
                  rw [hf.1] at h
                  exact Option.noConfusion h
                · intro h
                  have h2 := hf.2 100 h
                  simp only [Nat.zero_add] at h2
                  exact absurd (le_base_add_of_cmul h2.2) (by omega)
          · have heq3 := List.mem_singleton.mp hT
            injection heq3 with heq3
            subst heq3
            exact ⟨fun _ => rfl, fun _ => rfl⟩

/-- C1 (amended): in both pipelines the persisted `progress` values are
non-decreasing across the whole run (status writes, wave loops, finalize and
the failure guard included), and every write that sets `status = completed`
also sets `progress = 100`.  In the compliance pipeline the converse holds as
well: the only write carrying `progress = 100` is the completing finalize
write.  In the document pipeline the converse fails: the last Review-wave
write carries `progress = 50 + round(50*B/B) = 100` while the job is still
`in_progress` (see the counterexample). -/
theorem c1_progress_amended (po : PdfOracle) (n : Nat)
    (co : ComplianceOracle) (cb : List ComplianceBlock) :
    List.Chain' (· ≤ ·) (progressWrites (pdfRun po n).1) ∧
    List.Chain' (· ≤ ·) (progressWrites (complianceRun co cb).1) ∧
    (∀ u, WfEvent.write u ∈ (pdfRun po n).1 →
      u.status = some .completed → u.progress = some 100) ∧
    (∀ u, WfEvent.write u ∈ (complianceRun co cb).1 →
      u.status = some .completed → u.progress = some 100) ∧
    (∀ u, WfEvent.write u ∈ (complianceRun co cb).1 →
      u.progress = some 100 → u.status = some .completed) := by
  have hpdf : List.Chain' (· ≤ ·) (progressWrites (pdfRun po n).1) ∧
      ∀ u, WfEvent.write u ∈ (pdfRun po n).1 →
        u.status = some .completed → u.progress = some 100 := by
    rcases pdfRun_cases po n with ⟨r, evs, hbd, hr⟩ | ⟨e, evs, hbd, hr⟩
    · rw [hr]
      have hbody := pdfRunBody_progress po n
      rw [hbd] at hbody
      exact hbody
    · rw [hr]
      have hbody := pdfRunBody_progress po n
      rw [hbd] at hbody
      constructor
      · show List.Chain' (· ≤ ·)
          (progressWrites (evs ++ [failureWrite (jsErrorMessage e)]))
        rw [progressWrites_append,
          show progressWrites [failureWrite (jsErrorMessage e)] = [] from rfl,
          List.append_nil]
        exact hbody.1
      · intro u hu
        replace hu : WfEvent.write u ∈ evs ++ [failureWrite (jsErrorMessage e)] := hu
        rcases List.mem_append.mp hu with h1 | h1
        · exact hbody.2 u h1
        · have h2 := List.mem_singleton.mp h1
          injection h2 with h2
          subst h2
          intro h
          injection h with h
          exact JobStatus.noConfusion h
  have hcomp : List.Chain' (· ≤ ·) (progressWrites (complianceRun co cb).1) ∧
      ∀ u, WfEvent.write u ∈ (complianceRun co cb).1 →
        (u.status = some .completed → u.progress = some 100) ∧
        (u.progress = some 100 → u.status = some .completed) := by
    rcases complianceRun_cases co cb with ⟨r, evs, hbd, hr⟩ | ⟨e, evs, hbd, hr⟩
    · rw [hr]
      have hbody := complianceRunBody_progress co cb
      rw [hbd] at hbody
      exact hbody
    · rw [hr]
      have hbody := complianceRunBody_progress co cb
      rw [hbd] at hbody
      constructor
      · show List.Chain' (· ≤ ·)
          (progressWrites (evs ++ [failureWrite (jsErrorMessage e)]))
        rw [progressWrites_append,
          show progressWrites [failureWrite (jsErrorMessage e)] = [] from rfl,
          List.append_nil]
        exact hbody.1
      · intro u hu
        replace hu : WfEvent.write u ∈ evs ++ [failureWrite (jsErrorMessage e)] := hu
        rcases List.mem_append.mp hu with h1 | h1
        · exact hbody.2 u h1
        · have h2 := List.mem_singleton.mp h1
          injection h2 with h2
          subst h2
          refine ⟨fun h => ?_, fun h => Option.noConfusion h⟩
          injection h with h
          exact JobStatus.noConfusion h
  exact ⟨hpdf.1, hcomp.1, hpdf.2,
    fun u hu h => (hcomp.2 u hu).1 h,
    fun u hu h => (hcomp.2 u hu).2 h⟩

/-- One-page document whose extraction, review and summary calls all
succeed: the smallest successful document run. -/
def cexC1PdfOracle : PdfOracle :=
  { hasApiKey := true,
    pdfFetch := .ok (),
    parsePage := fun _ => .ok [⟨"Section 1", "hello"⟩],
    reviewRaw := fun _ _ => .ok ⟨.safe, 0, 5, "ok"⟩,
    summary := fun _ _ => .ok "summary" }

/-- C1 counterexample: in the document pipeline the Review stage's last wave
writes `progress = 100` (event index 3 of the trace: `50 + round(50*1/1)`)
while the persisted status, after folding the trace up to and including that
write, is still `in_progress` — so `progress = 100` does not imply
`status = completed`, refuting the claimed equivalence. -/
theorem c1_progress_counterexample :
    (pdfRun cexC1PdfOracle 1).1 =
      [pdfStartWrite,
        .write { currentStage := some "parsing", progress := some 50 },
        pdfReviewingWrite,
        .write { currentStage := some "reviewing", progress := some 100 },
        pdfSummarizingWrite,
        pdfFinalizeWrite] ∧
    statusAfter ((pdfRun cexC1PdfOracle 1).1.take 4) = .inProgress := by
  constructor
  · rfl
  · rfl

/-- Compliance oracle with no contract work to do: the run succeeds with the
four status writes alone. -/
def cexC1CompOracle : ComplianceOracle :=
  { hasApiKey := true,
    enableBGB := false,
    enableHGB := true,
    bgbObject := none,
    hgbObject := some [],
    identifyText := fun _ => .ok "",
    identifyStruct := fun _ => .error (.mk "unused"),
    analyzeText := fun _ => .ok "",
    analyzeStruct := fun _ => .error (.mk "unused") }

/-- Witness for C1: the amended theorem applied to concrete runs — the
one-page document run and the empty compliance run — discharging the
membership and status hypotheses at the finalize writes of both pipelines. -/
theorem c1_progress_witness :
    List.Chain' (· ≤ ·) (progressWrites (pdfRun cexC1PdfOracle 1).1) ∧
    List.Chain' (· ≤ ·) (progressWrites (complianceRun cexC1CompOracle []).1) ∧
    (⟨some JobStatus.completed, some "completed", some 100, none⟩ :
      JobUpdate).progress = some 100 ∧
    (⟨some JobStatus.completed, some "compliance_completed", some 100, none⟩ :
      JobUpdate).progress = some 100 ∧
    (⟨some JobStatus.completed, some "compliance_completed", some 100, none⟩ :
      JobUpdate).status = some JobStatus.completed := by
  have h := c1_progress_amended cexC1PdfOracle 1 cexC1CompOracle []
  refine ⟨h.1, h.2.1, ?_, ?_, ?_⟩
  · exact h.2.2.1 ⟨some JobStatus.completed, some "completed", some 100, none⟩
      (by decide) rfl
  · exact h.2.2.2.1 ⟨some JobStatus.completed, some "compliance_completed",
      some 100, none⟩ (by decide) rfl
  · exact h.2.2.2.2 ⟨some JobStatus.completed, some "compliance_completed",
      some 100, none⟩ (by decide) rfl

end B2Beast
